/-
Verification of the cloud-based personal knowledge manager's
hybrid retrieval-and-answer pipeline and its Redis-backed job queue.

The definitions below are a shallow embedding of the JavaScript sources:
  * `src/utils/ragService.js`        — answer cache, answerQuestion, prepareContext
  * `src/utils/embeddingService.js`  — generateEmbedding retry logic
  * the queue service module         — enqueueRagJob, claimJob, completeJob, ...
  * the HTTP router module           — handleAskSync, the POST /ask handler
  * the RAG worker module            — processJob

Modelling conventions:
  * JS numbers used as scores are embedded as `Rat` (the code never relies on
    float rounding for the verified claims); counts and lengths are `Nat`,
    priorities are `Int`.
  * JS `undefined`/`null`/missing object fields are `Option`; JS falsiness of
    `0` and `""` in `a || b` expressions is modelled by the `jsOr*` helpers.
  * A JS `Map` (insertion ordered) and a Redis hash/sorted set are modelled as
    association lists preserving insertion order.
  * Async external calls (BM25 index, vector store, LLM, embedding HTTP
    endpoint, Mongo file registry) are oracles supplied in an environment
    record; thrown JS exceptions are `Except.error` with the thrown message.
  * Wall-clock time is an explicit `now : Nat` in milliseconds.
-/
import Mathlib

namespace KnowledgeManager

/-! ## JS-value helpers

`a || b` in JavaScript returns `b` when `a` is falsy (`undefined`, `null`,
`0`, `""`). These helpers mirror that for the option-embedded values. -/

/-- `a || b` for an optional string (`""` is falsy). -/
def jsOrStr (a : Option String) (b : String) : String :=
  match a with
  | some s => if s = "" then b else s
  | none => b

/-- `a || b` for an optional natural number (`0` is falsy). -/
def jsOrNat (a : Option Nat) (b : Nat) : Nat :=
  match a with
  | some n => if n = 0 then b else n
  | none => b

/-- `a || b` for an optional integer (`0` is falsy). -/
def jsOrInt (a : Option Int) (b : Int) : Int :=
  match a with
  | some n => if n = 0 then b else n
  | none => b

/-- `a || b` for an optional rational (`0` is falsy). -/
def jsOrRat (a : Option Rat) (b : Rat) : Rat :=
  match a with
  | some x => if x = 0 then b else x
  | none => b

/-- `a || b` where both sides are optional rationals (`0` is falsy). -/
def jsOrRatOpt (a b : Option Rat) : Option Rat :=
  match a with
  | some x => if x = 0 then b else some x
  | none => b

/-- Truthiness of an optional string (`undefined`, `null` and `""` are falsy). -/
def jsStrTruthy : Option String → Bool
  | none => false
  | some s => s ≠ ""

/-- `x || null` for an optional string (`""` collapses to `null`). -/
def jsStrOrNull : Option String → Option String
  | none => none
  | some s => if s = "" then none else some s

/-- Stringification used when a number is joined into a cache key.  The exact
rendering differs from JS (`"3/10"` vs `"0.3"`) but is injective, which is all
key construction relies on. -/
def ratStr (r : Rat) : String := toString r.num ++ "/" ++ toString r.den

/-- JS whitespace (the ASCII part, which is all the verified scenarios use). -/
def jsWhitespace (c : Char) : Bool :=
  c = ' ' ∨ c = '\t' ∨ c = '\n' ∨ c = '\r'

/-- JS `String.prototype.trim`. -/
def jsTrim (s : String) : String :=
  String.mk (((s.data.dropWhile jsWhitespace).reverse.dropWhile
    jsWhitespace).reverse)

/-- Lower-case one character (ASCII, as the verified scenarios use). -/
def jsToLowerChar (c : Char) : Char :=
  if 65 ≤ c.toNat ∧ c.toNat ≤ 90 then Char.ofNat (c.toNat + 32) else c

/-- JS `String.prototype.toLowerCase`. -/
def jsToLower (s : String) : String := String.mk (s.data.map jsToLowerChar)

/-! ## Association lists: the JS `Map` and Redis hash model

Keys keep their original insertion position on update (JS `Map.set` and Redis
`HSET` semantics); new keys are appended. -/

/-- Look up a key (first match). -/
def assocGet (l : List (String × α)) (k : String) : Option α :=
  (l.find? (·.1 = k)).map (·.2)

/-- Look up with a default. -/
def assocGetD (l : List (String × α)) (k : String) (d : α) : α :=
  (assocGet l k).getD d

/-- Set a key: update in place if present, append otherwise. -/
def assocSet (l : List (String × α)) (k : String) (v : α) : List (String × α) :=
  if l.any (·.1 = k) then l.map (fun p => if p.1 = k then (k, v) else p)
  else l ++ [(k, v)]

/-- Update the value at a key through `f`, starting from `d` if absent. -/
def assocUpdate (l : List (String × α)) (k : String) (f : α → α) (d : α) :
    List (String × α) :=
  if l.any (·.1 = k) then l.map (fun p => if p.1 = k then (k, f p.2) else p)
  else l ++ [(k, f d)]

/-- Delete every entry with the key (`Map.delete` / `HDEL`). -/
def assocDel (l : List (String × α)) (k : String) : List (String × α) :=
  l.filter (·.1 ≠ k)

/-- `[...new Set(xs)]`: deduplicate keeping first occurrences. -/
def jsSetDedupAux (seen : List String) : List String → List String
  | [] => []
  | x :: xs =>
    if x ∈ seen then jsSetDedupAux seen xs
    else x :: jsSetDedupAux (x :: seen) xs

/-- JS `[...new Set(xs)]`. -/
def jsSetDedup (l : List String) : List String := jsSetDedupAux [] l

/-! ## `src/utils/ragService.js` — data model -/

/-- A retrieval result / chunk as it flows through the pipeline
(`RetrievalResult` in the spec).  All fields other than `fileName` and `text`
may be absent on a given JS object, hence `Option`. -/
structure RetrievalResult where
  fileId : Option String := none
  fileName : String := ""
  chunkIndex : Option Nat := none
  text : String := ""
  score : Option Rat := none
  source : Option String := none
  rrfScore : Option Rat := none
  vectorScore : Option Rat := none
  bm25Score : Option Rat := none
  fusionRank : Option Nat := none
  sources : Option (List String) := none
  deriving Repr, DecidableEq

/-- One element of the `sources` array of an `AnswerRecord`
(built by `answerQuestion` from a `RetrievalResult`).
`sources` holds `chunk.sources || [chunk.source]`, so its elements may be the
JS `undefined`, hence `List (Option String)`. -/
structure SourceEntry where
  fileName : String
  score : Option Rat
  text : String
  chunkIndex : Option Nat
  fileId : Option String
  sources : List (Option String)
  fusionRank : Option Nat
  deriving Repr, DecidableEq

/-- The `metadata` object of an `AnswerRecord`.  Different return paths of
`answerQuestion` populate different subsets of the fields; absent JS keys are
`none`. -/
structure Metadata where
  question : Option String := none
  chunksRetrieved : Nat := 0
  chunksUsed : Option Nat := none
  contextLength : Option Nat := none
  uniqueFiles : Option Nat := none
  uniqueFileNames : Option (List String) := none
  searchMode : Option String := none
  timestamp : Option String := none
  fileId : Option String := none
  reason : Option String := none
  cacheHit : Option Bool := none
  deriving Repr, DecidableEq

/-- The record returned (and cached) by `answerQuestion` /
`answerQuestionForFile`.  The short-circuit returns carry no `context` key,
hence `Option`. -/
structure AnswerRecord where
  answer : String
  context : Option String := none
  sources : List SourceEntry := []
  metadata : Metadata
  deriving Repr, DecidableEq

/-! ## `src/utils/ragService.js` — the answer cache -/

/-- `CACHE_TTL_MS = 5 * 60 * 1000`. -/
def CACHE_TTL_MS : Nat := 5 * 60 * 1000

/-- `MAX_CACHE_SIZE = 200`. -/
def MAX_CACHE_SIZE : Nat := 200

/-- One stored cache entry `{value, timestamp}`. -/
structure CacheEntry where
  value : AnswerRecord
  timestamp : Nat
  deriving Repr, DecidableEq

/-- The module-level `answerCache` JS `Map`, insertion-ordered. -/
abbrev Cache := List (String × CacheEntry)

/-- `getCachedAnswer`: a hit inside the TTL returns the stored value; an
expired entry is deleted and the call misses.  Returns the possibly shrunk
cache alongside the result. -/
def getCachedAnswer (cache : Cache) (now : Nat) (cacheKey : String) :
    Option AnswerRecord × Cache :=
  match assocGet cache cacheKey with
  | none => (none, cache)
  | some cached =>
    if now - cached.timestamp > CACHE_TTL_MS then
      (none, assocDel cache cacheKey)
    else
      (some cached.value, cache)

/-- `setCachedAnswer`: insert, then if the size exceeds `MAX_CACHE_SIZE`
delete the first key in insertion order (`answerCache.keys().next().value`). -/
def setCachedAnswer (cache : Cache) (now : Nat) (cacheKey : String)
    (value : AnswerRecord) : Cache :=
  let c := assocSet cache cacheKey ⟨value, now⟩
  if c.length > MAX_CACHE_SIZE then
    match c with
    | [] => c
    | (firstKey, _) :: _ => assocDel c firstKey
  else c

/-! ## `src/utils/ragService.js` — configuration and cache keys -/

/-- The caller-supplied `options` object (only keys actually passed by any
call site in the repository, plus `searchMode`/`rrfK` consumed from
`DEFAULT_CONFIG`). -/
structure Options where
  topK : Option Nat := none
  minScore : Option Rat := none
  maxContextLength : Option Nat := none
  searchMode : Option String := none
  rrfK : Option Nat := none
  fileContext : Option (List String) := none
  deriving Repr, DecidableEq

/-- The merged `config = {...DEFAULT_CONFIG, ...options}`. -/
structure Config where
  topK : Nat
  minScore : Rat
  maxContextLength : Nat
  searchMode : String
  rrfK : Nat
  deriving Repr, DecidableEq

/-- `{...DEFAULT_CONFIG, ...options}` with the defaults
`topK 5, minScore 0.3, maxContextLength 4000, searchMode 'hybrid', rrfK 60`. -/
def resolveConfig (o : Options) : Config :=
  { topK := o.topK.getD 5
    minScore := o.minScore.getD (mkRat 3 10)
    maxContextLength := o.maxContextLength.getD 4000
    searchMode := o.searchMode.getD "hybrid"
    rrfK := o.rrfK.getD 60 }

/-- `getCacheKey(parts) = parts.join('|')`. -/
def getCacheKey (parts : List String) : String := String.intercalate "|" parts

/-- The cache key built by `answerQuestion`:
`['rag', userId || 'anonymous', searchMode, topK, minScore, question.trim().toLowerCase()]`. -/
def cacheKeyFor (question : String) (userId : Option String) (cfg : Config) :
    String :=
  getCacheKey ["rag", jsOrStr userId "anonymous", cfg.searchMode,
    toString cfg.topK, ratStr cfg.minScore, jsToLower (jsTrim question)]

/-- The cache key built by `answerQuestionForFile`:
`['rag-file', fileId, topK, minScore, question.trim().toLowerCase()]`. -/
def cacheKeyForFile (question : String) (fileId : String) (cfg : Config) :
    String :=
  getCacheKey ["rag-file", fileId, toString cfg.topK, ratStr cfg.minScore,
    jsToLower (jsTrim question)]

/-! ## `src/utils/ragService.js` — context assembly -/

/-- The string built for chunk `chunk` at 0-based loop index `i`:
`` `[Source ${i + 1}: ${chunk.fileName}]\n${chunk.text}\n\n` ``. -/
def formattedChunk (i : Nat) (chunk : RetrievalResult) : String :=
  "[Source " ++ toString (i + 1) ++ ": " ++ chunk.fileName ++ "]\n"
    ++ chunk.text ++ "\n\n"

/-- The loop body of `prepareContext`: walk the chunks in order keeping a
running length, break at the first chunk that would push past `maxLength`. -/
def prepareContextAux (maxLength : Nat) :
    List RetrievalResult → Nat → Nat → String → String
  | [], _, _, context => context
  | chunk :: rest, i, currentLength, context =>
    if currentLength + (formattedChunk i chunk).length > maxLength then context
    else prepareContextAux maxLength rest (i + 1)
      (currentLength + (formattedChunk i chunk).length)
      (context ++ formattedChunk i chunk)

/-- `prepareContext(chunks, maxLength)`: greedy prefix of formatted chunks,
trailing whitespace trimmed. -/
def prepareContext (chunks : List RetrievalResult) (maxLength : Nat) : String :=
  jsTrim (prepareContextAux maxLength chunks 0 0 "")

/-- Number of chunks the `prepareContext` loop actually appends before
breaking (the chunks visible to the LLM).  Mirrors `prepareContextAux`. -/
def includedCount (maxLength : Nat) :
    List RetrievalResult → Nat → Nat → Nat
  | [], _, _ => 0
  | chunk :: rest, i, currentLength =>
    if currentLength + (formattedChunk i chunk).length > maxLength then 0
    else includedCount maxLength rest (i + 1)
      (currentLength + (formattedChunk i chunk).length) + 1

/-- The formatted strings of a chunk list, indices starting at `i`. -/
def formatFrom (i : Nat) : List RetrievalResult → List String
  | [] => []
  | chunk :: rest => formattedChunk i chunk :: formatFrom (i + 1) rest

/-- Concatenation of a list of strings (in order). -/
def strConcat : List String → String
  | [] => ""
  | s :: rest => s ++ strConcat rest

/-- Total length of a list of strings. -/
def sumLens (l : List String) : Nat := (l.map String.length).sum

/-! ## `src/utils/ragService.js` — the pipeline -/

/-- External-call labels, used to state which network round-trips a given
execution performs. -/
inductive ExtCall
  | bm25Search
  | embed
  | vectorSearch
  | llmGenerate
  deriving Repr, DecidableEq

/-- Filter passed to `qdrantService.searchSimilarChunks`:
`{must:[{key:'userId',...}]}` or `{must:[{key:'fileId',...}]}`. -/
inductive VectorFilter
  | byUser (userId : Option String)
  | byFile (fileId : String)
  deriving Repr, DecidableEq

/-- Metadata object handed to the LLM call
(`result: { metadata: tempMetadata }`). -/
structure TempMetadata where
  chunksUsed : Nat
  uniqueFiles : Nat
  uniqueFileNames : List String
  deriving Repr, DecidableEq

/-- Oracles for the external collaborators of `answerQuestion` plus the
wall clock.  `embed` is the imported `generateEmbedding`: it may throw
(`Except.error`) or resolve to `null` (`Option.none`). -/
structure Env where
  bm25Search : String → Nat → Option String → List RetrievalResult
  embed : String → Except String (Option (List Rat))
  vectorSearch : List Rat → Nat → VectorFilter → List RetrievalResult
  hybridSearch : List RetrievalResult → List RetrievalResult → Nat →
    List RetrievalResult
  applyDiversityPenalty : List RetrievalResult → List RetrievalResult
  generateAnswer : String → String → Option TempMetadata → String
  now : Nat
  nowIso : String

/-- `r.score >= config.minScore` on a JS object whose `score` may be
`undefined` (an undefined score never satisfies the comparison). -/
def scoreGE (r : RetrievalResult) (minScore : Rat) : Bool :=
  match r.score with
  | some s => minScore ≤ s
  | none => false

/-- The mapping applied to vector-only results. -/
def vectorResultMap (r : RetrievalResult) : RetrievalResult :=
  { fileId := r.fileId
    fileName := r.fileName
    chunkIndex := r.chunkIndex
    text := r.text
    score := r.score
    source := some "vector"
    rrfScore := r.score }

/-- The search-mode branch of `answerQuestion` producing `finalResults`
(or propagating a thrown error), together with the external calls it makes.
An unrecognised `searchMode` leaves `finalResults = []`. -/
def runSearch (env : Env) (question : String) (userId : Option String)
    (cfg : Config) : Except String (List RetrievalResult) × List ExtCall :=
  if cfg.searchMode = "hybrid" then
    let bm25Results := env.bm25Search question (cfg.topK * 2) userId
    match env.embed question with
    | .error e => (.error e, [.bm25Search, .embed])
    | .ok none =>
      (.error "Failed to generate question embedding", [.bm25Search, .embed])
    | .ok (some questionEmbedding) =>
      let vectorResults := env.vectorSearch questionEmbedding (cfg.topK * 2)
        (.byUser userId)
      let fused := env.hybridSearch bm25Results vectorResults cfg.rrfK
      let diversified := env.applyDiversityPenalty fused
      (.ok (diversified.take cfg.topK), [.bm25Search, .embed, .vectorSearch])
  else if cfg.searchMode = "vector" then
    match env.embed question with
    | .error e => (.error e, [.embed])
    | .ok none => (.error "Failed to generate question embedding", [.embed])
    | .ok (some questionEmbedding) =>
      let searchResults := env.vectorSearch questionEmbedding cfg.topK
        (.byUser userId)
      (.ok ((searchResults.filter (scoreGE · cfg.minScore)).map vectorResultMap),
        [.embed, .vectorSearch])
  else if cfg.searchMode = "bm25" then
    (.ok (env.bm25Search question cfg.topK none), [.bm25Search])
  else
    (.ok [], [])

/-- `sources` entry built from a final chunk:
`{fileName, score: vectorScore || rrfScore || score, text, chunkIndex,
fileId, sources: sources || [source], fusionRank}`. -/
def mkSourceEntry (chunk : RetrievalResult) : SourceEntry :=
  { fileName := chunk.fileName
    score := jsOrRatOpt chunk.vectorScore (jsOrRatOpt chunk.rrfScore chunk.score)
    text := chunk.text
    chunkIndex := chunk.chunkIndex
    fileId := chunk.fileId
    sources := match chunk.sources with
      | some l => l.map some
      | none => [chunk.source]
    fusionRank := chunk.fusionRank }

/-- The full-pipeline `result` object built after the LLM call. -/
def buildResult (env : Env) (question : String) (cfg : Config)
    (finalResults : List RetrievalResult) : AnswerRecord :=
  let context := prepareContext finalResults cfg.maxContextLength
  let uniqueFileNames := jsSetDedup (finalResults.map (·.fileName))
  let tempMetadata : TempMetadata :=
    { chunksUsed := finalResults.length
      uniqueFiles := uniqueFileNames.length
      uniqueFileNames := uniqueFileNames }
  let answer := env.generateAnswer question context (some tempMetadata)
  { answer := answer
    context := some context
    sources := finalResults.map mkSourceEntry
    metadata :=
      { question := some question
        chunksRetrieved := finalResults.length
        chunksUsed := some finalResults.length
        contextLength := some context.length
        uniqueFiles := some uniqueFileNames.length
        uniqueFileNames := some uniqueFileNames
        searchMode := some cfg.searchMode
        timestamp := some env.nowIso } }

/-- The canned record of the `fileContext`-empty short circuit. -/
def noFilesRecord (cfg : Config) : AnswerRecord :=
  { answer := "You haven\x27t uploaded any documents yet. Please upload some files to get started!"
    sources := []
    metadata :=
      { chunksRetrieved := 0
        searchMode := some cfg.searchMode
        reason := some "no_files" } }

/-- The canned record returned when retrieval finds nothing. -/
def noRelevantRecord (cfg : Config) : AnswerRecord :=
  { answer := "I don\x27t have any relevant information to answer that question."
    sources := []
    metadata :=
      { chunksRetrieved := 0
        searchMode := some cfg.searchMode } }

/-- `answerQuestion(question, userId, options)` over the oracle environment
and the module-level cache.  `question = none` stands for a missing or
non-string argument.  Returns the result (or thrown error), the cache after
the call, and the external calls performed. -/
def answerQuestion (env : Env) (cache : Cache) (question : Option String)
    (userId : Option String) (options : Options) :
    Except String AnswerRecord × Cache × List ExtCall :=
  match question with
  | none => (.error "Question is required", cache, [])
  | some q =>
    if (jsTrim q).length = 0 then (.error "Question is required", cache, [])
    else
      let config := resolveConfig options
      let cacheKey := cacheKeyFor q userId config
      match getCachedAnswer cache env.now cacheKey with
      | (some cached, cache') =>
        (.ok { cached with
          metadata := { cached.metadata with cacheHit := some true } },
          cache', [])
      | (none, cache') =>
        if options.fileContext = some [] then
          (.ok (noFilesRecord config), cache', [])
        else
          match runSearch env q userId config with
          | (.error e, calls) => (.error e, cache', calls)
          | (.ok finalResults, calls) =>
            if finalResults.length = 0 then
              (.ok (noRelevantRecord config), cache', calls)
            else
              let result := buildResult env q config finalResults
              (.ok result,
                setCachedAnswer cache' env.now cacheKey result,
                calls ++ [.llmGenerate])

/-- The record returned by `answerQuestionForFile` when the filtered vector
search finds nothing. -/
def noFileResultsRecord (fileId : String) : AnswerRecord :=
  { answer := "I couldn\x27t find relevant information in this specific document."
    sources := []
    metadata := { chunksRetrieved := 0, fileId := some fileId } }

/-- `answerQuestionForFile(question, fileId, options)`: vector-only search
filtered by `fileId`, its own `rag-file` cache key, no question validation. -/
def answerQuestionForFile (env : Env) (cache : Cache) (question : String)
    (fileId : String) (options : Options) :
    Except String AnswerRecord × Cache × List ExtCall :=
  let config := resolveConfig options
  let cacheKey := cacheKeyForFile question fileId config
  match getCachedAnswer cache env.now cacheKey with
  | (some cached, cache') =>
    (.ok { cached with
      metadata := { cached.metadata with cacheHit := some true } },
      cache', [])
  | (none, cache') =>
    match env.embed question with
    | .error e => (.error e, cache', [.embed])
    | .ok none =>
      (.error "Failed to generate question embedding", cache', [.embed])
    | .ok (some questionEmbedding) =>
      let searchResults := env.vectorSearch questionEmbedding config.topK
        (.byFile fileId)
      if searchResults.length = 0 then
        (.ok (noFileResultsRecord fileId), cache', [.embed, .vectorSearch])
      else
        let context := prepareContext searchResults config.maxContextLength
        let answer := env.generateAnswer question context none
        let result : AnswerRecord :=
          { answer := answer
            sources := searchResults.map (fun chunk =>
              { fileName := chunk.fileName
                score := chunk.score
                text := chunk.text
                chunkIndex := none
                fileId := none
                sources := []
                fusionRank := none })
            metadata :=
              { question := some question
                fileId := some fileId
                chunksRetrieved := searchResults.length
                contextLength := some context.length } }
        (.ok result,
          setCachedAnswer cache' env.now cacheKey result,
          [.embed, .vectorSearch, .llmGenerate])

/-! ## `src/utils/embeddingService.js` — single-embedding retry logic -/

/-- `EMBEDDING_DIM = 1024`. -/
def EMBEDDING_DIM : Nat := 1024

/-- `MAX_RETRIES = 2`. -/
def MAX_RETRIES : Nat := 2

/-- Outcome of one `fetch` of `POST /embed`: an abort (timeout), a non-OK
HTTP status (its `statusText`), or a JSON body whose `embedding` field is
either absent/not an array (`none`) or an array of numbers. -/
inductive FetchOutcome
  | timeout
  | httpError (statusText : String)
  | okJson (embedding : Option (List Rat))
  deriving Repr, DecidableEq

/-- The `try`/`catch` recursion of `generateEmbedding`: attempt `fetch`
outcomes are read off `fetch` at successive indices.  Returns the result
(`.ok none` models resolving to `null`) paired with the number of fetch
attempts performed.  On a timeout with `retries > 0` the code sleeps 1 s and
recurses with `retries - 1`; any other error is rethrown without retry. -/
def embedAttempt (fetch : Nat → FetchOutcome) :
    Nat → Nat → Except String (Option (List Rat)) × Nat
  | 0, idx =>
    match fetch idx with
    | .timeout => (.error "Embedding request timeout after retries", 1)
    | .httpError statusText =>
      (.error ("Embedding service error: " ++ statusText), 1)
    | .okJson none => (.ok none, 1)
    | .okJson (some e) =>
      if e.length = EMBEDDING_DIM then (.ok (some e), 1) else (.ok none, 1)
  | r + 1, idx =>
    match fetch idx with
    | .timeout =>
      let p := embedAttempt fetch r (idx + 1)
      (p.1, p.2 + 1)
    | .httpError statusText =>
      (.error ("Embedding service error: " ++ statusText), 1)
    | .okJson none => (.ok none, 1)
    | .okJson (some e) =>
      if e.length = EMBEDDING_DIM then (.ok (some e), 1) else (.ok none, 1)

/-- `generateEmbedding(text, retries = MAX_RETRIES)`.  `text = none` stands
for a missing/non-string argument; `healthy` is the cached
`checkServiceHealth()` verdict. -/
def generateEmbedding (healthy : Bool) (fetch : Nat → FetchOutcome)
    (text : Option String) : Except String (Option (List Rat)) × Nat :=
  match text with
  | none => (.ok none, 0)
  | some t =>
    if jsTrim t = "" then (.ok none, 0)
    else if ¬ healthy then (.error "Embedding service is unavailable", 0)
    else embedAttempt fetch MAX_RETRIES 0

/-! ## Queue service — data model

The queue service module (Redis-backed job queue shared with the Go workers).
Redis state is modelled as three insertion-ordered association maps:
sorted sets `queue:<requires>`, hashes `job:<id>`, and hashes
`running:<workerId>`.  A job payload is stored JSON-encoded in Redis; the
model stores the decoded `Job` directly (serialisation is the identity for
the verified claims). -/

/-- The `payload` object of a RAG job. -/
structure RagPayload where
  userId : Option String := none
  question : String := ""
  topK : Option Nat := none
  minScore : Option Rat := none
  fileId : Option String := none
  deriving Repr, DecidableEq

/-- The JSON job document written by `enqueueRagJob` (snake_case fields as in
the Redis schema). -/
structure Job where
  job_id : String
  task_type : String
  requires : String
  priority : Int
  payload : RagPayload
  timeout_ms : Nat
  deriving Repr, DecidableEq

/-- The fields of the `job:<id>` Redis hash ever written by this module. -/
structure JobHash where
  payload : Option Job := none
  metadata : Option String := none
  status : Option String := none
  created_at : Option Nat := none
  started_at : Option Nat := none
  completed_at : Option Nat := none
  failed_at : Option Nat := none
  worker_id : Option String := none
  progress : Option Nat := none
  chunks_processed : Option Nat := none
  last_heartbeat : Option Nat := none
  result : Option String := none
  error : Option String := none
  deriving Repr, DecidableEq

/-- The Redis state visible to the queue service. -/
structure QueueState where
  queues : List (String × List (String × Int)) := []
  jobs : List (String × JobHash) := []
  running : List (String × List (String × Nat)) := []
  deriving Repr, DecidableEq

/-- `ZADD`: set the member's score, appending new members. -/
def zadd (s : List (String × Int)) (score : Int) (member : String) :
    List (String × Int) :=
  assocSet s member score

/-- Remove a member from a sorted set. -/
def zrem (s : List (String × Int)) (member : String) : List (String × Int) :=
  assocDel s member

/-- The element `ZPOPMAX` returns: highest score, ties broken by the
lexicographically greatest member. -/
def zbest : List (String × Int) → Option (String × Int)
  | [] => none
  | p :: rest =>
    match zbest rest with
    | none => some p
    | some q => if q.2 < p.2 ∨ (p.2 = q.2 ∧ q.1 < p.1) then some p else some q

/-- Members of the given queue. -/
def getQueue (st : QueueState) (queueKey : String) : List (String × Int) :=
  assocGetD st.queues queueKey []

/-- Replace the given queue. -/
def setQueue (st : QueueState) (queueKey : String)
    (s : List (String × Int)) : QueueState :=
  { st with queues := assocSet st.queues queueKey s }

/-- `HSET job:<id> ...` through an update function (creating the hash when
absent, as Redis does). -/
def updateJob (st : QueueState) (jobId : String) (f : JobHash → JobHash) :
    QueueState :=
  { st with jobs := assocUpdate st.jobs jobId f {} }

/-- The decoded payload of `HGET job:<id> payload`. -/
def jobPayload (st : QueueState) (jobId : String) : Option Job :=
  (assocGet st.jobs jobId).bind (·.payload)

/-- The job document `enqueueRagJob` builds from its `jobData`. -/
def ragJobOf (jobId : String) (userId : Option String) (question : String)
    (topK : Option Nat) (minScore : Option Rat) (fileId : Option String)
    (priority : Option Int) : Job :=
  { job_id := jobId
    task_type := if jsStrTruthy fileId then "RAG_QUERY_FILE" else "RAG_QUERY"
    requires := "rag"
    priority := jsOrInt priority 5
    payload :=
      { userId := userId
        question := question
        topK := topK
        minScore := minScore
        fileId := jsStrOrNull fileId }
    timeout_ms := 60000 }

/-- The `HSET job:<id> {payload, metadata, status, created_at}` of an
enqueue. -/
def enqueueHashWrite (job : Job) (nowIso : String) (now : Nat)
    (h : JobHash) : JobHash :=
  { h with
    payload := some job
    metadata := some ("\x7b\x22source\x22:\x22rag-api\x22,\x22created_at\x22:\x22"
      ++ nowIso ++ "\x22\x7d")
    status := some "queued"
    created_at := some (now / 1000) }

/-- `enqueueRagJob(jobData)`.  `avail` is the `isRedisAvailable()` verdict and
`jobId` the freshly drawn v4 UUID.  Returns the job id (or `none` when Redis
is unavailable) and the updated Redis state. -/
def enqueueRagJob (avail : Bool) (st : QueueState) (jobId : String)
    (userId : Option String) (question : String) (topK : Option Nat)
    (minScore : Option Rat) (fileId : Option String) (priority : Option Int)
    (now : Nat) (nowIso : String) : Option String × QueueState :=
  if ¬ avail then (none, st)
  else
    let job := ragJobOf jobId userId question topK minScore fileId priority
    let st1 := updateJob st jobId (enqueueHashWrite job nowIso now)
    let st2 := setQueue st1 "queue:rag"
      (zadd (getQueue st1 "queue:rag") (-job.priority) jobId)
    (some jobId, st2)

/-- The ownership writes of a successful claim:
`running:<workerId>` gains the job, the job hash gets
`status = running`, `started_at`, `worker_id`. -/
def claimWrites (st : QueueState) (jobId workerId : String) (now : Nat) :
    QueueState :=
  let st1 := { st with
    running := assocSet st.running workerId
      (assocSet (assocGetD st.running workerId []) jobId (now / 1000)) }
  updateJob st1 jobId (fun h =>
    { h with
      status := some "running"
      started_at := some (now / 1000)
      worker_id := some workerId })

/-- The per-queue body of the `claimJob` loop: `ZPOPMAX` the queue, fetch the
popped job's payload, and on success record ownership via `claimWrites`.
A missing payload leaves the pop in place (the id is gone from the queue) and
reports no claim, letting the caller move to the next queue. -/
def tryClaimFrom (st : QueueState) (queueKey workerId : String) (now : Nat) :
    Option Job × QueueState :=
  match zbest (getQueue st queueKey) with
  | none => (none, st)
  | some (jobId, _) =>
    let st1 := setQueue st queueKey (zrem (getQueue st queueKey) jobId)
    match jobPayload st1 jobId with
    | none => (none, st1)
    | some job => (some job, claimWrites st1 jobId workerId now)

/-- `claimJob(workerType, workerId)`: probe `queue:<workerType>`, then
`queue:any`. -/
def claimJob (avail : Bool) (st : QueueState) (workerType workerId : String)
    (now : Nat) : Option Job × QueueState :=
  if ¬ avail then (none, st)
  else
    match tryClaimFrom st ("queue:" ++ workerType) workerId now with
    | (some job, st1) => (some job, st1)
    | (none, st1) => tryClaimFrom st1 "queue:any" workerId now

/-- `updateJobProgress(jobId, progress, chunksProcessed)`. -/
def updateJobProgress (avail : Bool) (st : QueueState) (jobId : String)
    (progress chunksProcessed : Nat) (now : Nat) : QueueState :=
  if ¬ avail then st
  else updateJob st jobId (fun h =>
    { h with
      progress := some progress
      chunks_processed := some chunksProcessed
      last_heartbeat := some (now / 1000) })

/-- `sendHeartbeat(jobId, workerId)`. -/
def sendHeartbeat (avail : Bool) (st : QueueState) (jobId workerId : String)
    (now : Nat) : QueueState :=
  if ¬ avail then st
  else
    let st1 := updateJob st jobId (fun h =>
      { h with last_heartbeat := some (now / 1000) })
    { st1 with
      running := assocSet st1.running workerId
        (assocSet (assocGetD st1.running workerId []) jobId (now / 1000)) }

/-- `completeJob(jobId, workerId, result)` (`result` kept JSON-encoded). -/
def completeJob (avail : Bool) (st : QueueState) (jobId workerId : String)
    (result : String) (now : Nat) : QueueState :=
  if ¬ avail then st
  else
    let st1 := updateJob st jobId (fun h =>
      { h with
        status := some "completed"
        completed_at := some (now / 1000)
        result := some result })
    { st1 with
      running := assocSet st1.running workerId
        (assocDel (assocGetD st1.running workerId []) jobId) }

/-- `failJob(jobId, workerId, error)`. -/
def failJob (avail : Bool) (st : QueueState) (jobId workerId : String)
    (error : String) (now : Nat) : QueueState :=
  if ¬ avail then st
  else
    let st1 := updateJob st jobId (fun h =>
      { h with
        status := some "failed"
        failed_at := some (now / 1000)
        error := some error })
    { st1 with
      running := assocSet st1.running workerId
        (assocDel (assocGetD st1.running workerId []) jobId) }

/-! ## HTTP surface — `handleAskSync` and `POST /ask` -/

/-- The request body plus the authenticated `req.user.userId`.
`question = none` stands for a missing or non-string `question`. -/
structure AskRequest where
  question : Option String := none
  topK : Option Nat := none
  minScore : Option Rat := none
  userId : String := ""
  deriving Repr, DecidableEq

/-- The JSON envelope the handlers send, with the HTTP status code.
`requestId` and `timing` diagnostics are not modelled. -/
inductive ApiResponse
  | ok (status : Nat) (data : AnswerRecord)
  | accepted (status : Nat) (jobId statusUrl : String)
  | err (status : Nat) (message : String)
  deriving Repr, DecidableEq

/-- Environment for the HTTP handlers: the pipeline oracles, the file
registry (`File.find({userId}).select('fileName')`), Redis availability and
the UUID the next enqueue would draw. -/
structure HttpEnv where
  rag : Env
  userFiles : String → List String
  redisAvailable : Bool
  freshJobId : String

/-- `handleAskSync(req, res)`: validate the question, fetch the user's file
names, run `answerQuestion` with
`{topK: topK || 5, minScore: minScore || 0.3, fileContext: fileNames}`,
mapping success to 200 and a thrown error to 500. -/
def handleAskSync (henv : HttpEnv) (cache : Cache) (req : AskRequest) :
    ApiResponse × Cache :=
  match req.question with
  | none => (.err 400 "Question is required", cache)
  | some q =>
    if (jsTrim q).length = 0 then (.err 400 "Question is required", cache)
    else
      match answerQuestion henv.rag cache (some q) (some req.userId)
        { topK := some (jsOrNat req.topK 5)
          minScore := some (jsOrRat req.minScore (mkRat 3 10))
          fileContext := some (henv.userFiles req.userId) } with
      | (.ok result, cache', _) => (.ok 200 result, cache')
      | (.error _, cache', _) =>
        (.err 500 "Failed to process question", cache')

/-- The `POST /ask` handler: validate, try `enqueueRagJob` with priority 5,
answer 202 with the job id on success, and fall back to `handleAskSync` when
the enqueue reports Redis unavailable. -/
def postAsk (henv : HttpEnv) (st : QueueState) (cache : Cache)
    (req : AskRequest) : ApiResponse × Cache × QueueState :=
  match req.question with
  | none => (.err 400 "Question is required", cache, st)
  | some q =>
    if (jsTrim q).length = 0 then (.err 400 "Question is required", cache, st)
    else
      match enqueueRagJob henv.redisAvailable st henv.freshJobId
        (some req.userId) q (some (jsOrNat req.topK 5))
        (some (jsOrRat req.minScore (mkRat 3 10))) none (some 5)
        henv.rag.now henv.rag.nowIso with
      | (none, st') =>
        let (resp, cache') := handleAskSync henv cache req
        (resp, cache', st')
      | (some jobId, st') =>
        (.accepted 202 jobId ("/api/rag/status/" ++ jobId), cache, st')

/-! ## RAG worker — `processJob` -/

/-- The options object the worker passes to the pipeline:
`{topK: topK || 5, minScore: minScore || 0.3}` — in particular no
`fileContext` key. -/
def workerOptions (p : RagPayload) : Options :=
  { topK := some (jsOrNat p.topK 5)
    minScore := some (jsOrRat p.minScore (mkRat 3 10)) }

/-- The answer computation of `processJob(job)`: dispatch on `payload.fileId`
to `answerQuestionForFile` or `answerQuestion`.  The surrounding
`updateJobProgress` Redis writes do not influence the returned record and are
modelled separately by `updateJobProgress`. -/
def processJob (env : Env) (cache : Cache) (job : Job) :
    Except String AnswerRecord × Cache × List ExtCall :=
  let p := job.payload
  if jsStrTruthy p.fileId then
    answerQuestionForFile env cache p.question (p.fileId.getD "")
      (workerOptions p)
  else
    answerQuestion env cache (some p.question) p.userId (workerOptions p)

/-! ## Queue operation traces

An operation alphabet over the queue service, used to state temporal claims
about arbitrary interleavings of API handlers and workers.  Each operation
carries the `isRedisAvailable()` verdict observed by that call. -/

/-- One queue-service call. -/
inductive QOp
  | enqueue (avail : Bool) (jobId : String) (userId : Option String)
      (question : String) (topK : Option Nat) (minScore : Option Rat)
      (fileId : Option String) (priority : Option Int) (now : Nat)
      (nowIso : String)
  | claim (avail : Bool) (workerType workerId : String) (now : Nat)
  | complete (avail : Bool) (jobId workerId : String) (result : String)
      (now : Nat)
  | fail (avail : Bool) (jobId workerId : String) (error : String) (now : Nat)
  | heartbeat (avail : Bool) (jobId workerId : String) (now : Nat)
  | progress (avail : Bool) (jobId : String) (p cp : Nat) (now : Nat)
  deriving Repr, DecidableEq

/-- State transition of one queue-service call. -/
def applyOp (st : QueueState) : QOp → QueueState
  | .enqueue avail jobId userId question topK minScore fileId priority now iso =>
    (enqueueRagJob avail st jobId userId question topK minScore fileId
      priority now iso).2
  | .claim avail workerType workerId now =>
    (claimJob avail st workerType workerId now).2
  | .complete avail jobId workerId result now =>
    completeJob avail st jobId workerId result now
  | .fail avail jobId workerId error now =>
    failJob avail st jobId workerId error now
  | .heartbeat avail jobId workerId now =>
    sendHeartbeat avail st jobId workerId now
  | .progress avail jobId p cp now =>
    updateJobProgress avail st jobId p cp now

/-- Run a trace of queue-service calls. -/
def applyOps (st : QueueState) (ops : List QOp) : QueueState :=
  ops.foldl applyOp st

/-- The job id an operation would add to a queue, if any. -/
def enqueueIdOf : QOp → Option String
  | .enqueue _ jobId _ _ _ _ _ _ _ _ => some jobId
  | _ => none

/-- All member ids of a list of sorted sets. -/
def allIds (qs : List (String × List (String × Int))) : List String :=
  qs.foldr (fun q acc => q.2.map (·.1) ++ acc) []

/-- All job ids currently sitting in any `queue:*` sorted set. -/
def allQueueIds (st : QueueState) : List String := allIds st.queues

/-- Every stored job payload's `job_id` matches its hash key. -/
def PayloadConsistentL (jobs : List (String × JobHash)) : Prop :=
  ∀ p ∈ jobs, ∀ j, p.2.payload = some j → j.job_id = p.1

/-- Every stored job payload's `job_id` matches its `job:<id>` hash key.
Every state the queue service itself builds satisfies this. -/
def PayloadConsistent (st : QueueState) : Prop :=
  PayloadConsistentL st.jobs

instance : DecidablePred PayloadConsistent := fun st =>
  inferInstanceAs (Decidable (∀ p ∈ st.jobs, ∀ j, p.2.payload = some j →
    j.job_id = p.1))

/-- No job id occurs twice across the sorted sets (enqueues use fresh
UUIDs, and each enqueue targets a single queue). -/
def UniqueQueueIds (st : QueueState) : Prop := (allQueueIds st).Nodup

instance : DecidablePred UniqueQueueIds := fun st =>
  inferInstanceAs (Decidable (allQueueIds st).Nodup)

/-- The queue map has no duplicate queue keys (Redis keys are unique). -/
def QueuesWF (st : QueueState) : Prop := (st.queues.map (·.1)).Nodup

instance : DecidablePred QueuesWF := fun st =>
  inferInstanceAs
    (Decidable (List.Nodup (st.queues.map
      (fun q : String × List (String × Int) => q.1))))

/-! ## Derived pipeline helpers used in theorem statements -/

/-- `ks.foldl setCachedAnswer`: a sequence of cache stores (all at time
`now` with value `v`), used to state the FIFO-eviction scenario S4. -/
def insertAll (cache : Cache) (ks : List String) (now : Nat)
    (v : AnswerRecord) : Cache :=
  ks.foldl (fun c k => setCachedAnswer c now k v) cache

/-- The cache entry a store at time `now` with value `v` creates for key
`k`. -/
def entryOf (now : Nat) (v : AnswerRecord) (k : String) :
    String × CacheEntry :=
  (k, ⟨v, now⟩)

/-! ## Concrete scenario data for witnesses and counterexamples -/

/-- A minimal answer record. -/
def sampleRecord : AnswerRecord :=
  { answer := "a", metadata := {} }

/-- `i` copies of the letter a — an injective key supply for the
201-insert cache scenario. -/
def mkKey (i : Nat) : String := String.mk (List.replicate i 'a')

/-- Keys 2..200 of the 201-insert scenario. -/
def midKeys : List String := (List.range 199).map (fun i => mkKey (i + 1))

/-- Key 201 of the 201-insert scenario. -/
def lastKey : String := mkKey 200

/-- Oracle environment whose external services all return empty results. -/
def emptyEnv : Env :=
  { bm25Search := fun _ _ _ => []
    embed := fun _ => .ok none
    vectorSearch := fun _ _ _ => []
    hybridSearch := fun _ _ _ => []
    applyDiversityPenalty := fun rs => rs
    generateAnswer := fun _ _ _ => "LLM ANSWER"
    now := 0
    nowIso := "1970-01-01T00:00:00.000Z" }

/-- A BM25 chunk from file `a`. -/
def chunkA : RetrievalResult :=
  { fileName := "a", text := "t", score := some 1, source := some "bm25" }

/-- A BM25 chunk from file `b`. -/
def chunkB : RetrievalResult :=
  { fileName := "b", text := "u", score := some 1, source := some "bm25" }

/-- Environment whose BM25 index returns two chunks. -/
def envTwoChunks : Env :=
  { emptyEnv with bm25Search := fun _ _ _ => [chunkA, chunkB] }

/-- Options forcing BM25-only mode with a 20-character context budget: the
second chunk no longer fits. -/
def optsTight : Options :=
  { searchMode := some "bm25", maxContextLength := some 20 }

/-- Options with an unrecognised search mode. -/
def optsBogusMode : Options := { searchMode := some "bogus" }

/-- Environment whose BM25 index returns one chunk, at time 1000. -/
def envOneChunk : Env :=
  { emptyEnv with bm25Search := fun _ _ _ => [chunkA], now := 1000 }

/-- The same environment observed 60 s later. -/
def envOneChunkLater : Env := { envOneChunk with now := 61000 }

/-- BM25-only options for the cache-idempotence witness. -/
def optsBm25 : Options := { searchMode := some "bm25" }

/-- A fresh, empty Redis state. -/
def stS5zero : QueueState := {}

/-- Scenario S5, step 1: enqueue `jlow` with priority 3 into a fresh Redis. -/
def stS5one : QueueState :=
  (enqueueRagJob true {} "jlow" (some "u1") "q" (some 5) (some (mkRat 3 10)) none
    (some 3) 1000 "t1").2

/-- Scenario S5, step 2: then enqueue `jhigh` with priority 9. -/
def stS5 : QueueState :=
  (enqueueRagJob true stS5one "jhigh" (some "u1") "q" (some 5) (some (mkRat 3 10))
    none (some 9) 2000 "t2").2

/-- The job document `enqueueRagJob` writes for `jlow`. -/
def jobLowS5 : Job :=
  { job_id := "jlow", task_type := "RAG_QUERY", requires := "rag"
    priority := 3
    payload := { userId := some "u1", question := "q", topK := some 5
                 minScore := some (mkRat 3 10), fileId := none }
    timeout_ms := 60000 }

/-- The job document `enqueueRagJob` writes for `jhigh`. -/
def jobHighS5 : Job :=
  { job_id := "jhigh", task_type := "RAG_QUERY", requires := "rag"
    priority := 9
    payload := { userId := some "u1", question := "q", topK := some 5
                 minScore := some (mkRat 3 10), fileId := none }
    timeout_ms := 60000 }

/-- An embedding endpoint that always times out. -/
def allTimeouts : Nat → FetchOutcome := fun _ => .timeout

/-- HTTP environment with Redis down and no stored files. -/
def henvDown : HttpEnv :=
  { rag := emptyEnv
    userFiles := fun _ => []
    redisAvailable := false
    freshJobId := "11111111-1111-4111-8111-111111111111" }

/-- A request with a valid question. -/
def reqHi : AskRequest := { question := some "hi", userId := "u" }

/-- A queued RAG_QUERY job (no `fileId`), as the worker would claim it. -/
def workerJob : Job :=
  { job_id := "jw", task_type := "RAG_QUERY", requires := "rag", priority := 5
    payload := { userId := some "u", question := "hi", topK := some 5
                 minScore := some (mkRat 3 10), fileId := none }
    timeout_ms := 60000 }

/-- Environment of a user with zero indexed documents: the embedding
service succeeds but every index is empty. -/
def envEmbedOk : Env :=
  { emptyEnv with
    embed := fun _ => .ok (some (List.replicate EMBEDDING_DIM 0)) }

/-! ## Cache lemmas -/

theorem assocSet_length {α : Type} (l : List (String × α)) (k : String)
    (v : α) :
    (assocSet l k v).length
      = if l.any (·.1 = k) then l.length else l.length + 1 := by
  unfold assocSet
  cases h : l.any (·.1 = k) <;> simp [h]

theorem assocDel_length_le {α : Type} (l : List (String × α)) (k : String) :
    (assocDel l k).length ≤ l.length :=
  List.length_filter_le _ _

theorem getCachedAnswer_length_le (cache : Cache) (now : Nat) (k : String) :
    ((getCachedAnswer cache now k).2).length ≤ cache.length := by
  unfold getCachedAnswer
  cases h : assocGet cache k with
  | none => simp
  | some c =>
    by_cases ht : now - c.timestamp > CACHE_TTL_MS
    · simpa [ht] using assocDel_length_le cache k
    · simp [ht]

theorem assocSet_fresh {α : Type} (l : List (String × α)) (k : String)
    (v : α) (h : l.any (·.1 = k) = false) :
    assocSet l k v = l ++ [(k, v)] := by
  unfold assocSet
  rw [h]
  simp

theorem any_eq_false_of_not_mem (l : List String) (k : String) (h : k ∉ l) :
    (l.any (· = k)) = false := by
  induction l with
  | nil => rfl
  | cons x xs ih =>
    have hx : ¬ (x = k) := fun he => h (he ▸ List.mem_cons_self x xs)
    have hxs : k ∉ xs := fun hm => h (List.mem_cons_of_mem _ hm)
    simp [hx, ih hxs]

theorem setCachedAnswer_length_le (cache : Cache) (now : Nat) (k : String)
    (v : AnswerRecord) (h : cache.length ≤ MAX_CACHE_SIZE) :
    (setCachedAnswer cache now k v).length ≤ MAX_CACHE_SIZE := by
  unfold setCachedAnswer
  have hlen : (assocSet cache k ⟨v, now⟩).length ≤ MAX_CACHE_SIZE + 1 := by
    rw [assocSet_length]
    split <;> omega
  generalize hc : assocSet cache k (⟨v, now⟩ : CacheEntry) = c at hlen ⊢
  show List.length (if c.length > MAX_CACHE_SIZE then
    match c with
    | [] => c
    | (firstKey, _) :: _ => assocDel c firstKey
    else c) ≤ MAX_CACHE_SIZE
  split
  · rcases c with _ | ⟨⟨k0, e0⟩, rest⟩
    · simp
    · show (assocDel ((k0, e0) :: rest) k0).length ≤ MAX_CACHE_SIZE
      have hdel : assocDel ((k0, e0) :: rest) k0 = assocDel rest k0 := by
        simp [assocDel]
      rw [hdel]
      have := assocDel_length_le rest k0
      simp only [List.length_cons] at hlen
      omega
  · next hng =>
    omega

theorem any_key_map_entryOf (now : Nat) (v : AnswerRecord) (l : List String)
    (k : String) :
    ((l.map (entryOf now v)).any (·.1 = k)) = l.any (· = k) := by
  induction l with
  | nil => rfl
  | cons x xs ih => simp [entryOf, ih]

theorem assocGet_map_entryOf (now : Nat) (v : AnswerRecord) (l : List String)
    (k : String) :
    assocGet (l.map (entryOf now v)) k
      = if k ∈ l then some ⟨v, now⟩ else none := by
  induction l with
  | nil => simp [assocGet]
  | cons x xs ih =>
    by_cases hx : x = k
    · subst hx
      simp [assocGet, entryOf]
    · have h1 : assocGet ((x :: xs).map (entryOf now v)) k
          = assocGet (xs.map (entryOf now v)) k := by
        unfold assocGet
        rw [List.map_cons, List.find?_cons_of_neg]
        simp [entryOf, hx]
      rw [h1, ih]
      have hx' : ¬ k = x := fun he => hx he.symm
      simp [List.mem_cons, hx']

theorem assocDel_map_entryOf (now : Nat) (v : AnswerRecord)
    (l : List String) (k : String) (hk : k ∉ l) :
    assocDel (l.map (entryOf now v)) k = l.map (entryOf now v) := by
  induction l with
  | nil => rfl
  | cons x xs ih =>
    have hxk : x ≠ k := fun h => hk (h ▸ List.mem_cons_self x xs)
    have hxs : k ∉ xs := fun h => hk (List.mem_cons_of_mem _ h)
    have htail := ih hxs
    simp only [List.map_cons]
    unfold assocDel at htail ⊢
    rw [List.filter_cons]
    have hhead : (decide ((entryOf now v x).1 ≠ k)) = true := by
      simp [entryOf, hxk]
    rw [hhead, if_pos rfl, htail]

theorem insertAll_fresh (now : Nat) (v : AnswerRecord) :
    ∀ (ks pre : List String), (pre ++ ks).Nodup →
      (pre ++ ks).length ≤ MAX_CACHE_SIZE →
      insertAll (pre.map (entryOf now v)) ks now v
        = (pre ++ ks).map (entryOf now v) := by
  intro ks
  induction ks with
  | nil =>
    intro pre _ _
    simp [insertAll]
  | cons k ks ih =>
    intro pre hnd hlen
    have hk_pre : k ∉ pre := fun hkp =>
      (List.disjoint_of_nodup_append hnd) hkp (List.mem_cons_self k ks)
    have hany : (pre.map (entryOf now v)).any (·.1 = k) = false := by
      rw [any_key_map_entryOf]
      exact any_eq_false_of_not_mem pre k hk_pre
    have step : setCachedAnswer (pre.map (entryOf now v)) now k v
        = (pre ++ [k]).map (entryOf now v) := by
      have happ : assocSet (pre.map (entryOf now v)) k
            (⟨v, now⟩ : CacheEntry)
          = pre.map (entryOf now v) ++ [entryOf now v k] :=
        assocSet_fresh _ _ _ hany
      unfold setCachedAnswer
      rw [happ]
      have hnotgt : ¬ ((pre.map (entryOf now v) ++ [entryOf now v k]).length
          > MAX_CACHE_SIZE) := by
        simp only [List.length_append, List.length_map, List.length_cons,
          List.length_nil]
        simp only [List.length_append, List.length_cons] at hlen
        omega
      rw [if_neg hnotgt]
      simp
    have hre : insertAll (pre.map (entryOf now v)) (k :: ks) now v
        = insertAll ((pre ++ [k]).map (entryOf now v)) ks now v := by
      simp [insertAll, step]
    rw [hre, ih (pre ++ [k]) (by simpa using hnd) (by simpa using hlen)]
    simp

theorem assocDel_cons_self (now : Nat) (v : AnswerRecord) (k0 : String)
    (l : List String) (h : k0 ∉ l) :
    assocDel ((k0 :: l).map (entryOf now v)) k0 = l.map (entryOf now v) := by
  have htail := assocDel_map_entryOf now v l k0 h
  simp only [List.map_cons]
  unfold assocDel at htail ⊢
  rw [List.filter_cons]
  have hhead : (decide ((entryOf now v k0).1 ≠ k0)) = false := by
    simp [entryOf]
  rw [hhead]
  simpa using htail

theorem setCachedAnswer_evicts (now : Nat) (v : AnswerRecord)
    (k0 klast : String) (mid : List String)
    (hnd : (k0 :: (mid ++ [klast])).Nodup)
    (hlen : mid.length + 1 = MAX_CACHE_SIZE) :
    setCachedAnswer ((k0 :: mid).map (entryOf now v)) now klast v
      = (mid ++ [klast]).map (entryOf now v) := by
  have hk0 : k0 ∉ mid ++ [klast] := (List.nodup_cons.mp hnd).1
  have hmn : (mid ++ [klast]).Nodup := (List.nodup_cons.mp hnd).2
  have hlastfresh : klast ∉ k0 :: mid := by
    intro hmem
    rcases List.mem_cons.mp hmem with h0 | hm
    · exact hk0 (h0 ▸ (by simp : klast ∈ mid ++ [klast]))
    · exact (List.disjoint_of_nodup_append hmn) hm (by simp)
  have hany : ((k0 :: mid).map (entryOf now v)).any (·.1 = klast) = false := by
    rw [any_key_map_entryOf]
    exact any_eq_false_of_not_mem _ _ hlastfresh
  have happ : assocSet ((k0 :: mid).map (entryOf now v)) klast
        (⟨v, now⟩ : CacheEntry)
      = ((k0 :: mid).map (entryOf now v)) ++ [entryOf now v klast] :=
    assocSet_fresh _ _ _ hany
  unfold setCachedAnswer
  rw [happ]
  have hgt : ((((k0 :: mid).map (entryOf now v)) ++ [entryOf now v klast]).length
      > MAX_CACHE_SIZE) := by
    simp only [List.length_append, List.length_map, List.length_cons,
      List.length_nil]
    omega
  rw [if_pos hgt]
  show assocDel (((k0 :: mid).map (entryOf now v)) ++ [entryOf now v klast]) k0
      = (mid ++ [klast]).map (entryOf now v)
  have hshape : ((k0 :: mid).map (entryOf now v)) ++ [entryOf now v klast]
      = (k0 :: (mid ++ [klast])).map (entryOf now v) := by
    simp
  rw [hshape]
  exact assocDel_cons_self now v k0 (mid ++ [klast]) hk0

/-- C2: the answer cache never exceeds `MAX_CACHE_SIZE = 200` entries after
a cache operation completes; inserting a 201st distinct key evicts exactly
the first key in insertion order, so after 201 distinct inserts the first
key misses while keys 2..201 still hit (scenario S4). -/
theorem cache_bound_and_fifo
    (cache : Cache) (t now : Nat) (k k0 klast : String) (r v : AnswerRecord)
    (mid : List String)
    (hbound : cache.length ≤ MAX_CACHE_SIZE)
    (hnd : (k0 :: (mid ++ [klast])).Nodup)
    (hlen : mid.length + 1 = MAX_CACHE_SIZE) :
    (setCachedAnswer cache t k r).length ≤ MAX_CACHE_SIZE
    ∧ ((getCachedAnswer cache t k).2).length ≤ MAX_CACHE_SIZE
    ∧ insertAll [] (k0 :: (mid ++ [klast])) now v
        = (mid ++ [klast]).map (entryOf now v)
    ∧ (insertAll [] (k0 :: (mid ++ [klast])) now v).length = MAX_CACHE_SIZE
    ∧ (getCachedAnswer (insertAll [] (k0 :: (mid ++ [klast])) now v) now k0).1
        = none
    ∧ ∀ kk ∈ mid ++ [klast],
        (getCachedAnswer (insertAll [] (k0 :: (mid ++ [klast])) now v) now
          kk).1 = some v := by
  have hfin : insertAll [] (k0 :: (mid ++ [klast])) now v
      = (mid ++ [klast]).map (entryOf now v) := by
    have hsplit : k0 :: (mid ++ [klast]) = (k0 :: mid) ++ [klast] := by simp
    have h200 : insertAll [] (k0 :: mid) now v
        = (k0 :: mid).map (entryOf now v) := by
      have hnd' : (k0 :: mid).Nodup := by
        have hsub : (k0 :: mid).Sublist (k0 :: (mid ++ [klast])) :=
          List.Sublist.cons₂ k0 (List.sublist_append_left mid [klast])
        exact hnd.sublist hsub
      have hl : (k0 :: mid).length ≤ MAX_CACHE_SIZE := by
        simp only [List.length_cons]
        omega
      simpa using insertAll_fresh now v (k0 :: mid) [] (by simpa using hnd')
        (by simpa using hl)
    calc insertAll [] (k0 :: (mid ++ [klast])) now v
        = insertAll (insertAll [] (k0 :: mid) now v) [klast] now v := by
          rw [hsplit]
          simp [insertAll, List.foldl_append]
      _ = setCachedAnswer ((k0 :: mid).map (entryOf now v)) now klast v := by
          rw [h200]
          simp [insertAll]
      _ = (mid ++ [klast]).map (entryOf now v) :=
          setCachedAnswer_evicts now v k0 klast mid hnd hlen
  refine ⟨setCachedAnswer_length_le cache t k r hbound,
    le_trans (getCachedAnswer_length_le cache t k) hbound,
    hfin, ?_, ?_, ?_⟩
  · rw [hfin]
    simp only [List.length_map, List.length_append, List.length_cons,
      List.length_nil]
    omega
  · rw [hfin]
    have hk0 : k0 ∉ mid ++ [klast] := (List.nodup_cons.mp hnd).1
    unfold getCachedAnswer
    rw [assocGet_map_entryOf]
    simp [hk0]
  · intro kk hkk
    rw [hfin]
    unfold getCachedAnswer
    rw [assocGet_map_entryOf]
    simp [hkk, CACHE_TTL_MS]

theorem mkKey_injective : Function.Injective mkKey := by
  intro a b h
  have := congrArg (fun s => s.data.length) h
  simpa [mkKey] using this

/-- Witness for C2: the concrete 201-key scenario with keys
`""`, `"a"`, `"aa"`, ..., discharging every hypothesis of
`cache_bound_and_fifo`. -/
theorem cache_bound_and_fifo_witness :
    (([] : Cache).length ≤ MAX_CACHE_SIZE)
    ∧ ((mkKey 0 :: (midKeys ++ [lastKey])).Nodup)
    ∧ (midKeys.length + 1 = MAX_CACHE_SIZE)
    ∧ ((getCachedAnswer
          (insertAll [] (mkKey 0 :: (midKeys ++ [lastKey])) 5 sampleRecord)
          5 (mkKey 0)).1 = none
       ∧ ∀ kk ∈ midKeys ++ [lastKey],
          (getCachedAnswer
            (insertAll [] (mkKey 0 :: (midKeys ++ [lastKey])) 5 sampleRecord)
            5 kk).1 = some sampleRecord) := by
  have hrange : mkKey 0 :: (midKeys ++ [lastKey])
      = (List.range 201).map mkKey := by
    have h1 : List.range 201 = List.range 200 ++ [200] := List.range_succ 200
    have h2 : List.range 200 = 0 :: (List.range 199).map (· + 1) := by
      simpa using List.range_succ_eq_map 199
    rw [h1, h2]
    simp [midKeys, lastKey, List.map_map, Function.comp]
  have hnd : (mkKey 0 :: (midKeys ++ [lastKey])).Nodup := by
    rw [hrange]
    exact (List.nodup_range 201).map mkKey_injective
  have hlen : midKeys.length + 1 = MAX_CACHE_SIZE := by
    simp [midKeys, MAX_CACHE_SIZE]
  have hb : ([] : Cache).length ≤ MAX_CACHE_SIZE := by simp
  have := cache_bound_and_fifo [] 0 5 "" (mkKey 0) lastKey sampleRecord
    sampleRecord midKeys hb hnd hlen
  exact ⟨hb, hnd, hlen, this.2.2.2.2.1, this.2.2.2.2.2⟩

/-! ## C6 — the empty-`fileContext` short circuit -/

/-- C6: when the caller supplies an empty `fileContext` and the cache
misses, `answerQuestion` returns the canned "no documents" record — whose
answer starts with "You haven't uploaded", with `chunksRetrieved = 0` and
`reason = 'no_files'` — and performs no external call at all. -/
theorem answerQuestion_no_files
    (env : Env) (cache : Cache) (q : String) (userId : Option String)
    (options : Options)
    (hq : ¬ ((jsTrim q).length = 0))
    (hfc : options.fileContext = some [])
    (hmiss : (getCachedAnswer cache env.now
        (cacheKeyFor q userId (resolveConfig options))).1 = none) :
    answerQuestion env cache (some q) userId options
      = (.ok (noFilesRecord (resolveConfig options)),
         (getCachedAnswer cache env.now
           (cacheKeyFor q userId (resolveConfig options))).2, [])
    ∧ (∃ rest, (noFilesRecord (resolveConfig options)).answer
        = "You haven\x27t uploaded" ++ rest)
    ∧ (noFilesRecord (resolveConfig options)).metadata.chunksRetrieved = 0
    ∧ (noFilesRecord (resolveConfig options)).metadata.reason
        = some "no_files" := by
  refine ⟨?_, ⟨" any documents yet. Please upload some files to get started!",
    rfl⟩, rfl, rfl⟩
  rcases hget : getCachedAnswer cache env.now
      (cacheKeyFor q userId (resolveConfig options)) with ⟨ro, cache'⟩
  rw [hget] at hmiss
  simp only at hmiss
  subst hmiss
  show (match some q with
    | none => (Except.error "Question is required", cache, ([] : List ExtCall))
    | some q => _) = _
  simp only [answerQuestion]
  rw [if_neg hq, hget]
  simp only [hfc]
  rw [if_pos trivial]

/-- Witness for C6 at a concrete call. -/
theorem answerQuestion_no_files_witness :
    (¬ ((jsTrim "hi").length = 0))
    ∧ (Options.fileContext { fileContext := some [] } = some [])
    ∧ answerQuestion emptyEnv [] (some "hi") (some "u")
        { fileContext := some [] }
      = (.ok (noFilesRecord (resolveConfig { fileContext := some [] })),
         [], []) := by
  have h := answerQuestion_no_files emptyEnv [] "hi" (some "u")
    { fileContext := some [] } (by decide) rfl (by rfl)
  exact ⟨by decide, rfl, h.1⟩

/-! ## C4 — input validation -/

/-- C4 (amended): a missing, non-string or blank question makes
`answerQuestion` throw "Question is required" (`handleAskSync` surfaces it
as HTTP 400); but an unknown `searchMode` is NOT rejected: with a cache miss
and a non-empty `fileContext`, `answerQuestion` returns the ordinary canned
"no relevant information" record with `chunksRetrieved = 0` instead of an
error. -/
theorem answerQuestion_invalid_input
    (env : Env) (cache : Cache) (q : String) (userId : Option String)
    (options : Options) (henv : HttpEnv) (hc : Cache) (req : AskRequest) :
    (answerQuestion env cache none userId options
      = (.error "Question is required", cache, []))
    ∧ ((jsTrim q).length = 0 →
        answerQuestion env cache (some q) userId options
          = (.error "Question is required", cache, []))
    ∧ (req.question = none →
        (handleAskSync henv hc req).1 = .err 400 "Question is required")
    ∧ (∀ q', req.question = some q' → (jsTrim q').length = 0 →
        (handleAskSync henv hc req).1 = .err 400 "Question is required")
    ∧ (¬ ((jsTrim q).length = 0) →
        (resolveConfig options).searchMode ∉
          (["hybrid", "vector", "bm25"] : List String) →
        (getCachedAnswer cache env.now
          (cacheKeyFor q userId (resolveConfig options))).1 = none →
        options.fileContext ≠ some [] →
        answerQuestion env cache (some q) userId options
          = (.ok (noRelevantRecord (resolveConfig options)),
             (getCachedAnswer cache env.now
               (cacheKeyFor q userId (resolveConfig options))).2, [])) := by
  refine ⟨rfl, ?_, ?_, ?_, ?_⟩
  · intro h0
    simp only [answerQuestion]
    rw [if_pos h0]
  · intro hnone
    unfold handleAskSync
    rw [hnone]
  · intro q' hsome h0
    unfold handleAskSync
    rw [hsome]
    simp only
    rw [if_pos h0]
  · intro hq hmode hmiss hfc
    have hh : ¬ ((resolveConfig options).searchMode = "hybrid") := by
      intro h
      exact hmode (by rw [h]; simp)
    have hv : ¬ ((resolveConfig options).searchMode = "vector") := by
      intro h
      exact hmode (by rw [h]; simp)
    have hb : ¬ ((resolveConfig options).searchMode = "bm25") := by
      intro h
      exact hmode (by rw [h]; simp)
    have hrun : runSearch env q userId (resolveConfig options)
        = (.ok [], []) := by
      unfold runSearch
      rw [if_neg hh, if_neg hv, if_neg hb]
    rcases hget : getCachedAnswer cache env.now
        (cacheKeyFor q userId (resolveConfig options)) with ⟨ro, cache'⟩
    rw [hget] at hmiss
    simp only at hmiss
    subst hmiss
    simp only [answerQuestion]
    rw [if_neg hq, hget]
    simp only
    rw [if_neg hfc, hrun]
    simp only [List.length_nil]
    rw [if_pos trivial]

/-- Witness for C4: the blank-question rejection and the
bogus-`searchMode` fall-through at concrete inputs. -/
theorem answerQuestion_invalid_input_witness :
    (answerQuestion emptyEnv [] (some "   ") (some "u") {}
      = (.error "Question is required", [], []))
    ∧ (answerQuestion emptyEnv [] none (some "u") {}
      = (.error "Question is required", [], []))
    ∧ answerQuestion emptyEnv [] (some "hi") (some "u") optsBogusMode
      = (.ok (noRelevantRecord (resolveConfig optsBogusMode)), [], []) := by
  have h := answerQuestion_invalid_input emptyEnv [] "hi" (some "u")
    optsBogusMode henvDown [] {}
  refine ⟨?_, h.1, ?_⟩
  · have h2 := (answerQuestion_invalid_input emptyEnv [] "   " (some "u")
      ({} : Options) henvDown [] {}).2.1
    exact h2 (by decide)
  · exact h.2.2.2.2 (by decide) (by decide) (by rfl) (by decide)

/-- Counterexample to C4 as stated: with `searchMode = "bogus"` the call
does not fail with an error — it returns a normal `AnswerRecord` (the
canned "no relevant information" answer). -/
theorem answerQuestion_unknown_mode_not_error :
    (answerQuestion emptyEnv [] (some "hi") (some "u") optsBogusMode).1
      = Except.ok (noRelevantRecord (resolveConfig optsBogusMode)) := by
  rfl

/-! ## Context-assembly lemmas -/

theorem strAppend_assoc (a b c : String) : a ++ b ++ c = a ++ (b ++ c) := by
  apply String.ext
  simp

theorem prepareContextAux_eq (maxLength : Nat) :
    ∀ (chunks : List RetrievalResult) (i curLen : Nat) (acc : String),
      prepareContextAux maxLength chunks i curLen acc
        = acc ++ strConcat ((formatFrom i chunks).take
            (includedCount maxLength chunks i curLen)) := by
  intro chunks
  induction chunks with
  | nil =>
    intro i curLen acc
    show acc = acc ++ strConcat []
    have : strConcat [] = "" := rfl
    rw [this]
    exact (String.append_empty acc).symm
  | cons c rest ih =>
    intro i curLen acc
    by_cases h : curLen + (formattedChunk i c).length > maxLength
    · simp only [prepareContextAux, includedCount, if_pos h, formatFrom,
        List.take_zero]
      show acc = acc ++ strConcat []
      have : strConcat [] = "" := rfl
      rw [this]
      exact (String.append_empty acc).symm
    · simp only [prepareContextAux, includedCount, formatFrom, if_neg h]
      rw [ih, List.take_succ_cons]
      show acc ++ formattedChunk i c ++ _ = acc ++ (formattedChunk i c ++ _)
      exact strAppend_assoc _ _ _

theorem includedCount_le_length (maxLength : Nat) :
    ∀ (chunks : List RetrievalResult) (i curLen : Nat),
      includedCount maxLength chunks i curLen ≤ chunks.length := by
  intro chunks
  induction chunks with
  | nil => intro i curLen; simp [includedCount]
  | cons c rest ih =>
    intro i curLen
    by_cases h : curLen + (formattedChunk i c).length > maxLength
    · simp only [includedCount, if_pos h]
      simp
    · simp only [includedCount, if_neg h, List.length_cons]
      have := ih (i + 1) (curLen + (formattedChunk i c).length)
      omega

theorem includedCount_sum_le (maxLength : Nat) :
    ∀ (chunks : List RetrievalResult) (i curLen : Nat), curLen ≤ maxLength →
      curLen + sumLens ((formatFrom i chunks).take
        (includedCount maxLength chunks i curLen)) ≤ maxLength := by
  intro chunks
  induction chunks with
  | nil =>
    intro i curLen hc
    simpa [includedCount, formatFrom, sumLens] using hc
  | cons c rest ih =>
    intro i curLen hc
    by_cases h : curLen + (formattedChunk i c).length > maxLength
    · simp only [includedCount, if_pos h, List.take_zero]
      simpa [sumLens] using hc
    · simp only [includedCount, if_neg h, formatFrom, List.take_succ_cons]
      have hfit : curLen + (formattedChunk i c).length ≤ maxLength := by omega
      have := ih (i + 1) (curLen + (formattedChunk i c).length) hfit
      simp only [sumLens, List.map_cons, List.sum_cons] at this ⊢
      omega

theorem includedCount_overflow (maxLength : Nat) :
    ∀ (chunks : List RetrievalResult) (i curLen : Nat),
      includedCount maxLength chunks i curLen < chunks.length →
      maxLength < curLen + sumLens ((formatFrom i chunks).take
        (includedCount maxLength chunks i curLen + 1)) := by
  intro chunks
  induction chunks with
  | nil => intro i curLen h; simp [includedCount] at h
  | cons c rest ih =>
    intro i curLen h
    by_cases hf : curLen + (formattedChunk i c).length > maxLength
    · simp only [includedCount, if_pos hf, formatFrom, zero_add,
        List.take_succ_cons, List.take_zero]
      simp only [sumLens, List.map_cons, List.map_nil, List.sum_cons,
        List.sum_nil]
      omega
    · simp only [includedCount, if_neg hf, formatFrom,
        List.take_succ_cons] at h ⊢
      simp only [List.length_cons] at h
      have hlt : includedCount maxLength rest (i + 1)
          (curLen + (formattedChunk i c).length) < rest.length := by omega
      have := ih (i + 1) (curLen + (formattedChunk i c).length) hlt
      simp only [sumLens, List.map_cons, List.sum_cons] at this ⊢
      omega

/-! ## The full pipeline path of `answerQuestion` -/

theorem answerQuestion_full_path
    (env : Env) (cache : Cache) (q : String) (userId : Option String)
    (options : Options) (rs : List RetrievalResult) (calls : List ExtCall)
    (hq : ¬ ((jsTrim q).length = 0))
    (hmiss : (getCachedAnswer cache env.now
        (cacheKeyFor q userId (resolveConfig options))).1 = none)
    (hfc : options.fileContext ≠ some [])
    (hsearch : runSearch env q userId (resolveConfig options)
        = (.ok rs, calls))
    (hne : rs ≠ []) :
    answerQuestion env cache (some q) userId options
      = (.ok (buildResult env q (resolveConfig options) rs),
         setCachedAnswer
           (getCachedAnswer cache env.now
             (cacheKeyFor q userId (resolveConfig options))).2
           env.now (cacheKeyFor q userId (resolveConfig options))
           (buildResult env q (resolveConfig options) rs),
         calls ++ [.llmGenerate]) := by
  rcases hget : getCachedAnswer cache env.now
      (cacheKeyFor q userId (resolveConfig options)) with ⟨ro, cache'⟩
  rw [hget] at hmiss
  simp only at hmiss
  subst hmiss
  simp only [answerQuestion]
  rw [if_neg hq, hget]
  simp only
  rw [if_neg hfc, hsearch]
  simp only
  rw [if_neg (by simpa using hne)]

/-! ## C5 — context assembly and `chunksUsed` -/

/-- C5 (amended): context assembly walks the ranked results in order,
formats chunk `i` as `[Source i+1: fileName]` plus its text, and stops
before the first chunk whose addition would exceed `maxContextLength`
(the kept prefix fits, and adding one more chunk would overflow whenever
any chunk was dropped).  However `metadata.chunksUsed` does NOT count the
chunks actually placed in the context: the code sets it (like
`chunksRetrieved`) to the full number of ranked results, and every ranked
result also appears in `sources`. -/
theorem context_assembly_chunksUsed
    (env : Env) (cache : Cache) (q : String) (userId : Option String)
    (options : Options) (rs : List RetrievalResult) (calls : List ExtCall)
    (hq : ¬ ((jsTrim q).length = 0))
    (hmiss : (getCachedAnswer cache env.now
        (cacheKeyFor q userId (resolveConfig options))).1 = none)
    (hfc : options.fileContext ≠ some [])
    (hsearch : runSearch env q userId (resolveConfig options)
        = (.ok rs, calls))
    (hne : rs ≠ []) :
    ∃ r, (answerQuestion env cache (some q) userId options).1 = .ok r
      ∧ r.metadata.chunksUsed = some rs.length
      ∧ r.metadata.chunksRetrieved = rs.length
      ∧ r.sources.length = rs.length
      ∧ r.context = some (prepareContext rs
          (resolveConfig options).maxContextLength)
      ∧ prepareContext rs (resolveConfig options).maxContextLength
          = jsTrim (strConcat ((formatFrom 0 rs).take
              (includedCount (resolveConfig options).maxContextLength rs 0 0)))
      ∧ sumLens ((formatFrom 0 rs).take
            (includedCount (resolveConfig options).maxContextLength rs 0 0))
          ≤ (resolveConfig options).maxContextLength
      ∧ (includedCount (resolveConfig options).maxContextLength rs 0 0
            < rs.length →
          (resolveConfig options).maxContextLength
            < sumLens ((formatFrom 0 rs).take
                (includedCount (resolveConfig options).maxContextLength rs 0 0
                  + 1)))
      ∧ includedCount (resolveConfig options).maxContextLength rs 0 0
          ≤ rs.length := by
  refine ⟨buildResult env q (resolveConfig options) rs, ?_, rfl, rfl, ?_, rfl,
    ?_, ?_, ?_, ?_⟩
  · rw [answerQuestion_full_path env cache q userId options rs calls hq hmiss
      hfc hsearch hne]
  · show (rs.map mkSourceEntry).length = rs.length
    exact List.length_map rs mkSourceEntry
  · show jsTrim (prepareContextAux _ rs 0 0 "") = _
    rw [prepareContextAux_eq]
    have : ("" : String) ++ strConcat ((formatFrom 0 rs).take
        (includedCount (resolveConfig options).maxContextLength rs 0 0))
        = strConcat ((formatFrom 0 rs).take
            (includedCount (resolveConfig options).maxContextLength rs 0 0)) := by
      apply String.ext
      simp
    rw [this]
  · simpa using includedCount_sum_le (resolveConfig options).maxContextLength
      rs 0 0 (Nat.zero_le _)
  · intro hlt
    simpa using includedCount_overflow (resolveConfig options).maxContextLength
      rs 0 0 hlt
  · exact includedCount_le_length _ rs 0 0

/-- Witness for C5: the two-chunk, 20-character-budget scenario. -/
theorem context_assembly_chunksUsed_witness :
    (runSearch envTwoChunks "q" (some "u") (resolveConfig optsTight)
      = (.ok [chunkA, chunkB], [.bm25Search]))
    ∧ ∃ r, (answerQuestion envTwoChunks [] (some "q") (some "u") optsTight).1
        = .ok r
      ∧ r.metadata.chunksUsed = some ([chunkA, chunkB] : List RetrievalResult).length
      ∧ r.context = some (prepareContext [chunkA, chunkB]
          (resolveConfig optsTight).maxContextLength) := by
  have h := context_assembly_chunksUsed envTwoChunks [] "q" (some "u")
    optsTight [chunkA, chunkB] [.bm25Search] (by decide) (by rfl) (by decide)
    (by rfl) (by decide)
  obtain ⟨r, h1, h2, _, _, h5, _⟩ := h
  exact ⟨by rfl, r, h1, h2, h5⟩

/-- Counterexample to C5 as stated: with two retrieved chunks and a
20-character budget only one chunk is included in the context, yet
`metadata.chunksUsed` reports 2. -/
theorem chunksUsed_counterexample :
    (answerQuestion envTwoChunks [] (some "q") (some "u") optsTight).1
      = Except.ok (buildResult envTwoChunks "q" (resolveConfig optsTight)
          [chunkA, chunkB])
    ∧ (buildResult envTwoChunks "q" (resolveConfig optsTight)
        [chunkA, chunkB]).metadata.chunksUsed = some 2
    ∧ includedCount 20 [chunkA, chunkB] 0 0 = 1
    ∧ (buildResult envTwoChunks "q" (resolveConfig optsTight)
        [chunkA, chunkB]).context = some "[Source 1: a]\nt"
    ∧ some (includedCount 20 [chunkA, chunkB] 0 0)
        ≠ (buildResult envTwoChunks "q" (resolveConfig optsTight)
            [chunkA, chunkB]).metadata.chunksUsed := by
  refine ⟨by rfl, by rfl, by rfl, by rfl, by decide⟩

/-! ## Cache-hit lemmas -/

theorem assocGet_none_any_false {α : Type} (l : List (String × α))
    (k : String) (h : assocGet l k = none) : l.any (·.1 = k) = false := by
  induction l with
  | nil => rfl
  | cons p rest ih =>
    by_cases hp : p.1 = k
    · exfalso
      unfold assocGet at h
      rw [List.find?_cons_of_pos _ (by simpa using hp)] at h
      simp at h
    · have htail : assocGet rest k = none := by
        unfold assocGet at h ⊢
        rwa [List.find?_cons_of_neg _ (by simpa using hp)] at h
      simp [hp, ih htail]

theorem assocGet_cons_none_head {α : Type} (p : String × α)
    (rest : List (String × α)) (k : String)
    (h : assocGet (p :: rest) k = none) : ¬ (p.1 = k) := by
  intro hpk
  unfold assocGet at h
  rw [List.find?_cons_of_pos _ (by simpa using hpk)] at h
  simp at h

theorem assocGet_cons_none_tail {α : Type} (p : String × α)
    (rest : List (String × α)) (k : String)
    (h : assocGet (p :: rest) k = none) : assocGet rest k = none := by
  have hp := assocGet_cons_none_head p rest k h
  unfold assocGet at h ⊢
  rwa [List.find?_cons_of_neg _ (by simpa using hp)] at h

theorem assocGet_assocDel_self {α : Type} (l : List (String × α))
    (k : String) : assocGet (assocDel l k) k = none := by
  induction l with
  | nil => rfl
  | cons p rest ih =>
    by_cases hp : p.1 = k
    · have hdel : assocDel (p :: rest) k = assocDel rest k := by
        simp [assocDel, hp]
      rw [hdel]
      exact ih
    · have hdel : assocDel (p :: rest) k = p :: assocDel rest k := by
        simp [assocDel, hp]
      rw [hdel]
      unfold assocGet at ih ⊢
      rw [List.find?_cons_of_neg _ (by simpa using hp)]
      exact ih

theorem assocGet_assocDel_ne {α : Type} (l : List (String × α))
    (k0 k : String) (h : k ≠ k0) :
    assocGet (assocDel l k0) k = assocGet l k := by
  induction l with
  | nil => rfl
  | cons p rest ih =>
    by_cases hp0 : p.1 = k0
    · have hdel : assocDel (p :: rest) k0 = assocDel rest k0 := by
        simp [assocDel, hp0]
      have hpk : ¬ (p.1 = k) := by
        rw [hp0]
        exact fun he => h he.symm
      rw [hdel, ih]
      unfold assocGet
      rw [List.find?_cons_of_neg _ (by simpa using hpk)]
    · have hdel : assocDel (p :: rest) k0 = p :: assocDel rest k0 := by
        simp [assocDel, hp0]
      rw [hdel]
      by_cases hpk : p.1 = k
      · unfold assocGet
        rw [List.find?_cons_of_pos _ (by simpa using hpk),
          List.find?_cons_of_pos _ (by simpa using hpk)]
      · unfold assocGet at ih ⊢
        rw [List.find?_cons_of_neg _ (by simpa using hpk),
          List.find?_cons_of_neg _ (by simpa using hpk)]
        exact ih

theorem assocGet_append_fresh {α : Type} (l : List (String × α)) (k : String)
    (v : α) (h : assocGet l k = none) :
    assocGet (l ++ [(k, v)]) k = some v := by
  induction l with
  | nil => simp [assocGet]
  | cons p rest ih =>
    have hp := assocGet_cons_none_head p rest k h
    have htail := assocGet_cons_none_tail p rest k h
    unfold assocGet at ih ⊢
    rw [List.cons_append, List.find?_cons_of_neg _ (by simpa using hp)]
    exact ih htail

theorem getCachedAnswer_miss_not_found (cache : Cache) (now : Nat)
    (k : String) (h : (getCachedAnswer cache now k).1 = none) :
    assocGet ((getCachedAnswer cache now k).2) k = none := by
  unfold getCachedAnswer at h ⊢
  cases hg : assocGet cache k with
  | none => simp only [hg]
  | some c =>
    simp only [hg] at h ⊢
    by_cases ht : now - c.timestamp > CACHE_TTL_MS
    · rw [if_pos ht]
      exact assocGet_assocDel_self cache k
    · rw [if_neg ht] at h
      simp at h

theorem assocGet_setCachedAnswer_self (cache : Cache) (now : Nat)
    (k : String) (v : AnswerRecord) (hfresh : assocGet cache k = none) :
    assocGet (setCachedAnswer cache now k v) k = some ⟨v, now⟩ := by
  have hany := assocGet_none_any_false cache k hfresh
  have happ : assocSet cache k (⟨v, now⟩ : CacheEntry)
      = cache ++ [(k, ⟨v, now⟩)] := assocSet_fresh cache k _ hany
  have hget_app : assocGet (cache ++ [(k, (⟨v, now⟩ : CacheEntry))]) k
      = some ⟨v, now⟩ := assocGet_append_fresh cache k _ hfresh
  unfold setCachedAnswer
  rw [happ]
  by_cases hgt : (cache ++ [(k, (⟨v, now⟩ : CacheEntry))]).length
      > MAX_CACHE_SIZE
  · rw [if_pos hgt]
    cases cache with
    | nil => simp [MAX_CACHE_SIZE] at hgt
    | cons p rest =>
      show assocGet (assocDel ((p :: rest) ++ [(k, ⟨v, now⟩)]) p.1) k
          = some ⟨v, now⟩
      have hp := assocGet_cons_none_head p rest k hfresh
      rw [assocGet_assocDel_ne _ _ _ (fun he => hp he.symm)]
      exact hget_app
  · rw [if_neg hgt]
    exact hget_app

/-! ## C3 — cache idempotence -/

/-- C3: a second `answerQuestion` call with the same normalised question,
user, search mode, topK and minScore, made while the record cached by a
first (full-pipeline) call is within its 5-minute TTL, returns byte-equal
`answer` and `context` strings and the same `sources`, with
`metadata.cacheHit = true`, and performs no external calls. -/
theorem answer_cache_idempotent
    (env1 env2 : Env) (cache : Cache) (q1 q2 : String)
    (userId : Option String) (opts1 opts2 : Options)
    (rs : List RetrievalResult) (calls : List ExtCall)
    (hq1 : ¬ ((jsTrim q1).length = 0)) (hq2 : ¬ ((jsTrim q2).length = 0))
    (hmiss : (getCachedAnswer cache env1.now
        (cacheKeyFor q1 userId (resolveConfig opts1))).1 = none)
    (hfc : opts1.fileContext ≠ some [])
    (hsearch : runSearch env1 q1 userId (resolveConfig opts1)
        = (.ok rs, calls))
    (hne : rs ≠ [])
    (hqeq : jsToLower (jsTrim q2) = jsToLower (jsTrim q1))
    (hmode : (resolveConfig opts2).searchMode
        = (resolveConfig opts1).searchMode)
    (htop : (resolveConfig opts2).topK = (resolveConfig opts1).topK)
    (hms : (resolveConfig opts2).minScore = (resolveConfig opts1).minScore)
    (httl : ¬ (env2.now - env1.now > CACHE_TTL_MS)) :
    ∃ r1 cache1,
      answerQuestion env1 cache (some q1) userId opts1
        = (.ok r1, cache1, calls ++ [.llmGenerate])
      ∧ answerQuestion env2 cache1 (some q2) userId opts2
          = (.ok { r1 with metadata :=
              { r1.metadata with cacheHit := some true } }, cache1, [])
      ∧ ({ r1 with metadata := { r1.metadata with cacheHit := some true } }
          : AnswerRecord).answer = r1.answer
      ∧ ({ r1 with metadata := { r1.metadata with cacheHit := some true } }
          : AnswerRecord).context = r1.context
      ∧ ({ r1 with metadata := { r1.metadata with cacheHit := some true } }
          : AnswerRecord).sources = r1.sources
      ∧ ({ r1 with metadata := { r1.metadata with cacheHit := some true } }
          : AnswerRecord).metadata.cacheHit = some true := by
  have hkey : cacheKeyFor q2 userId (resolveConfig opts2)
      = cacheKeyFor q1 userId (resolveConfig opts1) := by
    unfold cacheKeyFor
    rw [hmode, htop, hms, hqeq]
  set cfg1 := resolveConfig opts1 with hcfg1
  set key1 := cacheKeyFor q1 userId cfg1 with hkey1
  set r1 := buildResult env1 q1 cfg1 rs with hr1
  set cache' := (getCachedAnswer cache env1.now key1).2 with hcache'
  set cache1 := setCachedAnswer cache' env1.now key1 r1 with hcache1
  have h1 := answerQuestion_full_path env1 cache q1 userId opts1 rs calls hq1
    hmiss hfc hsearch hne
  have hfresh : assocGet cache' key1 = none :=
    getCachedAnswer_miss_not_found cache env1.now key1 hmiss
  have hstored : assocGet cache1 key1 = some ⟨r1, env1.now⟩ :=
    assocGet_setCachedAnswer_self cache' env1.now key1 r1 hfresh
  have hget2 : getCachedAnswer cache1 env2.now key1 = (some r1, cache1) := by
    unfold getCachedAnswer
    rw [hstored]
    show (if env2.now - env1.now > CACHE_TTL_MS then _ else _) = _
    rw [if_neg httl]
  have h2 : answerQuestion env2 cache1 (some q2) userId opts2
      = (.ok { r1 with metadata :=
          { r1.metadata with cacheHit := some true } }, cache1, []) := by
    simp only [answerQuestion]
    rw [if_neg hq2, hkey, hget2]
  exact ⟨r1, cache1, h1, h2, rfl, rfl, rfl, rfl⟩

/-- Witness for C3: a BM25-mode call at t = 1 s, repeated with different
whitespace/casing at t = 61 s, inside the 5-minute TTL. -/
theorem answer_cache_idempotent_witness :
    (runSearch envOneChunk "Hi " (some "u") (resolveConfig optsBm25)
      = (.ok [chunkA], [.bm25Search]))
    ∧ (jsToLower (jsTrim " hI") = jsToLower (jsTrim "Hi "))
    ∧ ¬ (envOneChunkLater.now - envOneChunk.now > CACHE_TTL_MS)
    ∧ ∃ r1 cache1,
      answerQuestion envOneChunk [] (some "Hi ") (some "u") optsBm25
        = (.ok r1, cache1, [.bm25Search] ++ [.llmGenerate])
      ∧ answerQuestion envOneChunkLater cache1 (some " hI") (some "u")
          optsBm25
        = (.ok { r1 with metadata :=
            { r1.metadata with cacheHit := some true } }, cache1, []) := by
  have h := answer_cache_idempotent envOneChunk envOneChunkLater [] "Hi "
    " hI" (some "u") optsBm25 optsBm25 [chunkA] [.bm25Search]
    (by decide) (by decide) (by rfl) (by decide) (by rfl) (by decide)
    (by decide) rfl rfl rfl (by decide)
  obtain ⟨r1, cache1, ha, hb, _⟩ := h
  exact ⟨by rfl, by decide, by decide, r1, cache1, ha, hb⟩

/-! ## C7 — embedding retry budget -/

theorem embedAttempt_count_le (fetch : Nat → FetchOutcome) :
    ∀ (retries idx : Nat),
      (embedAttempt fetch retries idx).2 ≤ retries + 1 := by
  intro retries
  induction retries with
  | zero =>
    intro idx
    unfold embedAttempt
    cases fetch idx with
    | timeout => simp
    | httpError s => simp
    | okJson o =>
      cases o with
      | none => simp
      | some e => by_cases he : e.length = EMBEDDING_DIM <;> simp [he]
  | succ r ih =>
    intro idx
    unfold embedAttempt
    cases fetch idx with
    | timeout => simpa using Nat.succ_le_succ (ih (idx + 1))
    | httpError s => simp
    | okJson o =>
      cases o with
      | none => simp
      | some e => by_cases he : e.length = EMBEDDING_DIM <;> simp [he]

theorem embedAttempt_all_timeouts (fetch : Nat → FetchOutcome)
    (h : ∀ i, fetch i = .timeout) :
    ∀ (retries idx : Nat), embedAttempt fetch retries idx
      = (.error "Embedding request timeout after retries", retries + 1) := by
  intro retries
  induction retries with
  | zero =>
    intro idx
    unfold embedAttempt
    rw [h idx]
  | succ r ih =>
    intro idx
    unfold embedAttempt
    rw [h idx, ih (idx + 1)]

/-- C7 (amended): on a timeout `generateEmbedding` retries with a 1-second
delay up to `MAX_RETRIES = 2` times, so one embed call makes at most
`MAX_RETRIES + 1 = 3` fetch attempts — not 2; when every attempt times out
it fails with the timeout error after exactly 3 attempts. -/
theorem generateEmbedding_retries
    (fetch : Nat → FetchOutcome) (t : String) (retries idx : Nat)
    (ht : ¬ (jsTrim t = "")) :
    (embedAttempt fetch retries idx).2 ≤ retries + 1
    ∧ (generateEmbedding true fetch (some t)).2 ≤ MAX_RETRIES + 1
    ∧ ((∀ i, fetch i = .timeout) →
        generateEmbedding true fetch (some t)
          = (.error "Embedding request timeout after retries", 3)) := by
  have hgen : generateEmbedding true fetch (some t)
      = embedAttempt fetch MAX_RETRIES 0 := by
    show (if jsTrim t = "" then ((Except.ok none, 0) :
        Except String (Option (List Rat)) × Nat)
      else if ¬ ((true : Bool) = true) then
        (Except.error "Embedding service is unavailable", 0)
      else embedAttempt fetch MAX_RETRIES 0) = embedAttempt fetch MAX_RETRIES 0
    rw [if_neg ht, if_neg (by simp)]
  refine ⟨embedAttempt_count_le fetch retries idx, ?_, ?_⟩
  · rw [hgen]
    exact embedAttempt_count_le fetch MAX_RETRIES 0
  · intro hto
    rw [hgen, embedAttempt_all_timeouts fetch hto MAX_RETRIES 0]
    rfl

/-- Witness for C7's amended statement at a concrete input. -/
theorem generateEmbedding_retries_witness :
    (¬ (jsTrim "hi" = ""))
    ∧ (generateEmbedding true allTimeouts (some "hi")).2 ≤ MAX_RETRIES + 1
    ∧ generateEmbedding true allTimeouts (some "hi")
        = (.error "Embedding request timeout after retries", 3) := by
  have h := generateEmbedding_retries allTimeouts "hi" 0 0 (by decide)
  exact ⟨by decide, h.2.1, h.2.2 (fun _ => rfl)⟩

/-- Counterexample to C7 as stated: with every request timing out, one
embed call performs three fetch attempts (two retries), not at most two. -/
theorem generateEmbedding_three_attempts :
    generateEmbedding true allTimeouts (some "hi")
      = (.error "Embedding request timeout after retries", 3)
    ∧ ¬ ((generateEmbedding true allTimeouts (some "hi")).2 ≤ 2) := by
  exact ⟨rfl, by decide⟩

/-! ## C8 — graceful degradation of `POST /ask` -/

theorem handleAskSync_cases (henv : HttpEnv) (cache : Cache)
    (req : AskRequest) :
    (handleAskSync henv cache req).1 = .err 400 "Question is required"
    ∨ (∃ r, (handleAskSync henv cache req).1 = .ok 200 r)
    ∨ (handleAskSync henv cache req).1
        = .err 500 "Failed to process question" := by
  rcases hq : req.question with _ | q
  · left
    simp only [handleAskSync, hq]
  · by_cases h0 : (jsTrim q).length = 0
    · left
      simp only [handleAskSync, hq, if_pos h0]
    · simp only [handleAskSync, hq, if_neg h0]
      rcases hans : answerQuestion henv.rag cache (some q) (some req.userId)
        { topK := some (jsOrNat req.topK 5)
          minScore := some (jsOrRat req.minScore (mkRat 3 10))
          fileContext := some (henv.userFiles req.userId) } with ⟨res, c', cl⟩
      cases res with
      | ok r => right; left; exact ⟨r, rfl⟩
      | error e => right; right; rfl

/-- C8: with Redis unavailable the `POST /ask` handler returns exactly the
synchronous `handleAskSync` response on the same request and cache, leaves
the queue state untouched, and that response is never a 202 job ticket; a
successful pipeline run is surfaced as HTTP 200.  Queue unavailability
never becomes a client-visible error. -/
theorem ask_graceful_degradation
    (henv : HttpEnv) (st : QueueState) (cache : Cache) (req : AskRequest)
    (hdown : henv.redisAvailable = false) :
    postAsk henv st cache req
      = ((handleAskSync henv cache req).1,
         (handleAskSync henv cache req).2, st)
    ∧ (∀ s d, (handleAskSync henv cache req).1 = ApiResponse.ok s d →
        s = 200)
    ∧ (∀ s j u, (handleAskSync henv cache req).1
        ≠ ApiResponse.accepted s j u) := by
  refine ⟨?_, ?_, ?_⟩
  · rcases hq : req.question with _ | q
    · simp only [postAsk, handleAskSync, hq]
    · rcases hans : answerQuestion henv.rag cache (some q) (some req.userId)
        { topK := some (jsOrNat req.topK 5)
          minScore := some (jsOrRat req.minScore (mkRat 3 10))
          fileContext := some (henv.userFiles req.userId) } with ⟨res, c', cl⟩
      by_cases h0 : (jsTrim q).length = 0
      · simp only [postAsk, handleAskSync, hq, if_pos h0]
      · simp only [postAsk, handleAskSync, hq, if_neg h0, hdown]
        have henq : enqueueRagJob false st henv.freshJobId
            (some req.userId) q (some (jsOrNat req.topK 5))
            (some (jsOrRat req.minScore (mkRat 3 10))) none (some 5)
            henv.rag.now henv.rag.nowIso = (none, st) := rfl
        rw [henq, hans]
  · intro s d hok
    rcases handleAskSync_cases henv cache req with h | ⟨r, h⟩ | h
    · rw [h] at hok
      exact absurd hok (by simp)
    · rw [h] at hok
      injection hok with h1 h2
      exact h1.symm
    · rw [h] at hok
      exact absurd hok (by simp)
  · intro s j u hacc
    rcases handleAskSync_cases henv cache req with h | ⟨r, h⟩ | h
    · rw [h] at hacc
      simp at hacc
    · rw [h] at hacc
      simp at hacc
    · rw [h] at hacc
      simp at hacc

/-- Witness for C8: Redis down, a valid question, empty file registry. -/
theorem ask_graceful_degradation_witness :
    (henvDown.redisAvailable = false)
    ∧ postAsk henvDown {} [] reqHi
      = ((handleAskSync henvDown [] reqHi).1,
         (handleAskSync henvDown [] reqHi).2, ({} : QueueState))
    ∧ (∀ s j u, (handleAskSync henvDown [] reqHi).1
        ≠ ApiResponse.accepted s j u) := by
  have h := ask_graceful_degradation henvDown {} [] reqHi rfl
  exact ⟨rfl, h.1, h.2.2⟩

/-! ## Association-list lemmas for the queue model -/

theorem assocGet_eq_none_of_any_false {α : Type} (l : List (String × α))
    (k : String) (h : l.any (·.1 = k) = false) : assocGet l k = none := by
  induction l with
  | nil => rfl
  | cons p rest ih =>
    simp only [List.any_cons, Bool.or_eq_false_iff] at h
    unfold assocGet
    rw [List.find?_cons_of_neg _ (by simpa using h.1)]
    exact ih h.2

theorem map_replace_of_any_false {α : Type} (l : List (String × α))
    (k : String) (v : α) (h : l.any (·.1 = k) = false) :
    l.map (fun p => if p.1 = k then (k, v) else p) = l := by
  induction l with
  | nil => rfl
  | cons p rest ih =>
    simp only [List.any_cons, Bool.or_eq_false_iff] at h
    have hp : ¬ (p.1 = k) := by simpa using h.1
    simp only [List.map_cons, if_neg hp]
    rw [ih h.2]

theorem assocSet_append_replace {α : Type} (l : List (String × α))
    (k : String) (v w : α) (h : l.any (·.1 = k) = false) :
    assocSet (l ++ [(k, v)]) k w = l ++ [(k, w)] := by
  unfold assocSet
  have hany : (l ++ [(k, v)]).any (·.1 = k) = true := by
    simp [List.any_append]
  rw [hany, if_pos rfl, List.map_append, map_replace_of_any_false l k w h]
  simp

theorem assocSet_cons_ne {α : Type} (p : String × α)
    (rest : List (String × α)) (k : String) (v : α) (hp : ¬ (p.1 = k)) :
    assocSet (p :: rest) k v = p :: assocSet rest k v := by
  unfold assocSet
  have hcons : ((p :: rest).any (·.1 = k)) = rest.any (·.1 = k) := by
    simp [List.any_cons, hp]
  rw [hcons]
  by_cases hr : rest.any (·.1 = k) = true
  · rw [if_pos hr, if_pos hr]
    simp [List.map_cons, if_neg hp]
  · rw [if_neg hr, if_neg hr]
    simp

theorem assocUpdate_cons_ne {α : Type} (p : String × α)
    (rest : List (String × α)) (k : String) (f : α → α) (d : α)
    (hp : ¬ (p.1 = k)) :
    assocUpdate (p :: rest) k f d = p :: assocUpdate rest k f d := by
  unfold assocUpdate
  have hcons : ((p :: rest).any (·.1 = k)) = rest.any (·.1 = k) := by
    simp [List.any_cons, hp]
  rw [hcons]
  by_cases hr : rest.any (·.1 = k) = true
  · rw [if_pos hr, if_pos hr]
    simp [List.map_cons, if_neg hp]
  · rw [if_neg hr, if_neg hr]
    simp

theorem assocGet_assocUpdate_self {α : Type} (l : List (String × α))
    (k : String) (f : α → α) (d : α) :
    assocGet (assocUpdate l k f d) k = some (f (assocGetD l k d)) := by
  induction l with
  | nil =>
    show assocGet ([] ++ [(k, f d)]) k = _
    simp [assocGet, assocGetD]
  | cons p rest ih =>
    by_cases hp : p.1 = k
    · have hany : ((p :: rest).any (·.1 = k)) = true := by
        simp [List.any_cons, hp]
      have hupd : assocUpdate (p :: rest) k f d
          = (k, f p.2) :: rest.map (fun x => if x.1 = k then (k, f x.2)
              else x) := by
        unfold assocUpdate
        rw [hany, if_pos rfl]
        simp [List.map_cons, hp]
      have hgetPD : assocGetD (p :: rest) k d = p.2 := by
        unfold assocGetD assocGet
        rw [List.find?_cons_of_pos _ (by simpa using hp)]
        rfl
      rw [hupd, hgetPD]
      unfold assocGet
      rw [List.find?_cons_of_pos _ (by simp)]
      rfl
    · have hgd : assocGetD (p :: rest) k d = assocGetD rest k d := by
        unfold assocGetD assocGet
        rw [List.find?_cons_of_neg _ (by simpa using hp)]
      rw [assocUpdate_cons_ne p rest k f d hp, hgd]
      unfold assocGet
      rw [List.find?_cons_of_neg _ (by simpa using hp)]
      unfold assocGet at ih
      exact ih

theorem assocGet_map_update_ne {α : Type} (l : List (String × α))
    (k k' : String) (f : α → α) (hkk : ¬ (k = k')) :
    assocGet (l.map (fun x => if x.1 = k' then (k', f x.2) else x)) k
      = assocGet l k := by
  induction l with
  | nil => rfl
  | cons p rest ih =>
    by_cases hp : p.1 = k'
    · have h1 : ¬ (((k', f p.2) : String × α).1 = k) :=
        fun he => hkk (he.symm)
      have h2 : ¬ (p.1 = k) := by
        rw [hp]
        exact fun he => hkk he.symm
      simp only [List.map_cons, if_pos hp]
      unfold assocGet
      rw [List.find?_cons_of_neg _ (by simpa using h1),
        List.find?_cons_of_neg _ (by simpa using h2)]
      unfold assocGet at ih
      exact ih
    · simp only [List.map_cons, if_neg hp]
      by_cases hpk : p.1 = k
      · unfold assocGet
        rw [List.find?_cons_of_pos _ (by simpa using hpk),
          List.find?_cons_of_pos _ (by simpa using hpk)]
      · unfold assocGet
        rw [List.find?_cons_of_neg _ (by simpa using hpk),
          List.find?_cons_of_neg _ (by simpa using hpk)]
        unfold assocGet at ih
        exact ih

theorem assocGet_append_single_ne {α : Type} (l : List (String × α))
    (k k' : String) (v : α) (hkk : ¬ (k = k')) :
    assocGet (l ++ [(k', v)]) k = assocGet l k := by
  induction l with
  | nil =>
    unfold assocGet
    rw [List.nil_append,
      List.find?_cons_of_neg _ (by simpa using fun he => hkk he.symm)]
  | cons p rest ih =>
    by_cases hpk : p.1 = k
    · unfold assocGet
      rw [List.cons_append, List.find?_cons_of_pos _ (by simpa using hpk),
        List.find?_cons_of_pos _ (by simpa using hpk)]
    · unfold assocGet
      rw [List.cons_append, List.find?_cons_of_neg _ (by simpa using hpk),
        List.find?_cons_of_neg _ (by simpa using hpk)]
      unfold assocGet at ih
      exact ih

theorem assocGet_assocUpdate_ne {α : Type} (l : List (String × α))
    (k k' : String) (f : α → α) (d : α) (hkk : ¬ (k = k')) :
    assocGet (assocUpdate l k' f d) k = assocGet l k := by
  unfold assocUpdate
  by_cases hany : l.any (·.1 = k') = true
  · rw [if_pos hany]
    exact assocGet_map_update_ne l k k' f hkk
  · rw [if_neg hany]
    exact assocGet_append_single_ne l k k' (f d) hkk

theorem jsOrInt_some_of_ne (p d : Int) (h : p ≠ 0) :
    jsOrInt (some p) d = p := by
  show (if p = 0 then d else p) = p
  rw [if_neg h]

/-! ## Enqueue characterization -/

theorem enqueueRagJob_queues (st : QueueState) (jobId : String)
    (uid : Option String) (q : String) (tk : Option Nat) (ms : Option Rat)
    (fid : Option String) (pr : Option Int) (now : Nat) (iso : String) :
    ((enqueueRagJob true st jobId uid q tk ms fid pr now iso).2).queues
      = assocSet st.queues "queue:rag"
          (zadd (getQueue st "queue:rag") (-(jsOrInt pr 5)) jobId) := rfl

theorem enqueueRagJob_jobs (st : QueueState) (jobId : String)
    (uid : Option String) (q : String) (tk : Option Nat) (ms : Option Rat)
    (fid : Option String) (pr : Option Int) (now : Nat) (iso : String) :
    ((enqueueRagJob true st jobId uid q tk ms fid pr now iso).2).jobs
      = assocUpdate st.jobs jobId
          (enqueueHashWrite (ragJobOf jobId uid q tk ms fid pr) iso now)
          {} := rfl

theorem enqueueRagJob_payload_self (st : QueueState) (jobId : String)
    (uid : Option String) (q : String) (tk : Option Nat) (ms : Option Rat)
    (fid : Option String) (pr : Option Int) (now : Nat) (iso : String) :
    jobPayload (enqueueRagJob true st jobId uid q tk ms fid pr now iso).2
        jobId
      = some (ragJobOf jobId uid q tk ms fid pr) := by
  unfold jobPayload
  rw [enqueueRagJob_jobs, assocGet_assocUpdate_self]
  rfl

theorem enqueueRagJob_payload_ne (st : QueueState) (jobId : String)
    (uid : Option String) (q : String) (tk : Option Nat) (ms : Option Rat)
    (fid : Option String) (pr : Option Int) (now : Nat) (iso : String)
    (j : String) (hne : ¬ (j = jobId)) :
    jobPayload (enqueueRagJob true st jobId uid q tk ms fid pr now iso).2 j
      = jobPayload st j := by
  unfold jobPayload
  rw [enqueueRagJob_jobs, assocGet_assocUpdate_ne _ _ _ _ _ hne]

/-! ## C1 — priority order of claims -/

/-- C1 (amended): `enqueueRagJob` stores jobs with sorted-set score
`-priority` and `claimJob` pops with `ZPOPMAX`, so of two jobs queued in
`queue:rag` the one with the numerically SMALLER priority is claimed
first: after enqueueing J_low (priority `pLow`) and then J_high (priority
`pHigh > pLow`), `claimJob` returns J_low, not J_high. -/
theorem claimJob_priority_order
    (st : QueueState) (idLow idHigh wid iso1 iso2 : String)
    (uid1 uid2 : Option String) (q1 q2 : String)
    (tk1 tk2 : Option Nat) (ms1 ms2 : Option Rat)
    (pLow pHigh : Int) (t1 t2 t3 : Nat)
    (hq : st.queues.any (·.1 = "queue:rag") = false)
    (hids : ¬ (idLow = idHigh))
    (hp0L : pLow ≠ 0) (hp0H : pHigh ≠ 0)
    (hlt : pLow < pHigh) :
    (claimJob true
        ((enqueueRagJob true
          ((enqueueRagJob true st idLow uid1 q1 tk1 ms1 none (some pLow)
            t1 iso1).2)
          idHigh uid2 q2 tk2 ms2 none (some pHigh) t2 iso2).2)
        "rag" wid t3).1
      = some (ragJobOf idLow uid1 q1 tk1 ms1 none (some pLow))
    ∧ (ragJobOf idLow uid1 q1 tk1 ms1 none (some pLow)).priority = pLow := by
  have hgetnone : assocGet st.queues "queue:rag"
      = (none : Option (List (String × Int))) :=
    assocGet_eq_none_of_any_false st.queues "queue:rag" hq
  have hget0 : getQueue st "queue:rag" = [] := by
    unfold getQueue assocGetD
    rw [hgetnone]
    rfl
  have hprL : jsOrInt (some pLow) 5 = pLow := jsOrInt_some_of_ne _ _ hp0L
  have hprH : jsOrInt (some pHigh) 5 = pHigh := jsOrInt_some_of_ne _ _ hp0H
  set stA := (enqueueRagJob true st idLow uid1 q1 tk1 ms1 none (some pLow)
    t1 iso1).2 with hstA
  set stB := (enqueueRagJob true stA idHigh uid2 q2 tk2 ms2 none (some pHigh)
    t2 iso2).2 with hstB
  have h1q : stA.queues = st.queues ++ [("queue:rag", [(idLow, -pLow)])] := by
    rw [hstA, enqueueRagJob_queues, hget0, hprL]
    show assocSet st.queues "queue:rag" [(idLow, -pLow)] = _
    unfold assocSet
    rw [hq]
    simp
  have h2get : getQueue stA "queue:rag" = [(idLow, -pLow)] := by
    unfold getQueue assocGetD
    rw [h1q, assocGet_append_fresh st.queues "queue:rag" _ hgetnone]
    rfl
  have h2q : stB.queues
      = st.queues ++ [("queue:rag", [(idLow, -pLow), (idHigh, -pHigh)])] := by
    rw [hstB, enqueueRagJob_queues, h2get, hprH]
    have hzadd2 : zadd [(idLow, -pLow)] (-pHigh) idHigh
        = [(idLow, -pLow), (idHigh, -pHigh)] := by
      unfold zadd assocSet
      have hany1 : ([((idLow : String), (-pLow : Int))].any (·.1 = idHigh))
          = false := by
        simp only [List.any_cons, List.any_nil, Bool.or_false]
        simpa using hids
      rw [hany1]
      simp
    rw [hzadd2, h1q]
    exact assocSet_append_replace st.queues "queue:rag" _ _ hq
  have hgetB : getQueue stB "queue:rag"
      = [(idLow, -pLow), (idHigh, -pHigh)] := by
    unfold getQueue assocGetD
    rw [h2q, assocGet_append_fresh st.queues "queue:rag" _ hgetnone]
    rfl
  have hzbest : zbest [(idLow, -pLow), (idHigh, -pHigh)]
      = some (idLow, -pLow) := by
    show (if ((-pHigh : Int)) < (-pLow) ∨ ((-pLow : Int) = -pHigh
        ∧ idHigh < idLow) then some ((idLow : String), (-pLow : Int))
      else some (idHigh, -pHigh)) = some (idLow, -pLow)
    rw [if_pos (Or.inl (by omega))]
  have hpayB : jobPayload stB idLow
      = some (ragJobOf idLow uid1 q1 tk1 ms1 none (some pLow)) := by
    rw [hstB, enqueueRagJob_payload_ne _ _ _ _ _ _ _ _ _ _ idLow hids, hstA,
      enqueueRagJob_payload_self]
  have hqr : ("queue:" ++ "rag" : String) = "queue:rag" := rfl
  have hclaim1 : (tryClaimFrom stB "queue:rag" wid t3).1
      = some (ragJobOf idLow uid1 q1 tk1 ms1 none (some pLow)) := by
    simp only [tryClaimFrom, hgetB, hzbest]
    have hpay' : jobPayload (setQueue stB "queue:rag"
        (zrem [(idLow, -pLow), (idHigh, -pHigh)] idLow)) idLow
        = some (ragJobOf idLow uid1 q1 tk1 ms1 none (some pLow)) := hpayB
    rw [hpay']
  refine ⟨?_, by rw [show (ragJobOf idLow uid1 q1 tk1 ms1 none
    (some pLow)).priority = jsOrInt (some pLow) 5 from rfl, hprL]⟩
  show (claimJob true stB "rag" wid t3).1 = _
  unfold claimJob
  rw [if_neg (by simp), hqr]
  rcases htc : tryClaimFrom stB "queue:rag" wid t3 with ⟨res, stC⟩
  rw [htc] at hclaim1
  simp only at hclaim1
  subst hclaim1
  rfl

/-- Witness for C1's amended statement: the concrete scenario S5 state. -/
theorem claimJob_priority_order_witness :
    (stS5zero.queues.any (·.1 = "queue:rag") = false)
    ∧ ¬ (("jlow" : String) = "jhigh")
    ∧ (claimJob true
        ((enqueueRagJob true
          ((enqueueRagJob true stS5zero "jlow" (some "u1") "q" (some 5)
            (some (mkRat 3 10)) none (some 3) 1000 "t1").2)
          "jhigh" (some "u1") "q" (some 5) (some (mkRat 3 10)) none (some 9)
          2000 "t2").2)
        "rag" "w1" 3000).1
      = some (ragJobOf "jlow" (some "u1") "q" (some 5) (some (mkRat 3 10))
          none (some 3)) := by
  have h := claimJob_priority_order stS5zero "jlow" "jhigh" "w1" "t1" "t2"
    (some "u1") (some "u1") "q" "q" (some 5) (some 5) (some (mkRat 3 10))
    (some (mkRat 3 10)) 3 9 1000 2000 3000 rfl (by decide) (by decide)
    (by decide) (by decide)
  exact ⟨rfl, by decide, h.1⟩

/-- Counterexample to C1 as stated (scenario S5): after enqueueing J_low
(priority 3) and then J_high (priority 9) into `queue:rag`, `claimJob`
returns J_low — the numerically smaller priority — not J_high. -/
theorem claimJob_pops_low_priority_first :
    (claimJob true stS5 "rag" "w1" 3000).1 = some jobLowS5
    ∧ ¬ ((claimJob true stS5 "rag" "w1" 3000).1 = some jobHighS5) := by
  exact ⟨rfl, by decide⟩

/-! ## Queue-id lemmas for worker exclusion -/

theorem allIds_cons (q : String × List (String × Int))
    (rest : List (String × List (String × Int))) :
    allIds (q :: rest) = q.2.map (·.1) ++ allIds rest := rfl

theorem allIds_append (a b : List (String × List (String × Int))) :
    allIds (a ++ b) = allIds a ++ allIds b := by
  induction a with
  | nil => rfl
  | cons q rest ih =>
    rw [List.cons_append, allIds_cons, allIds_cons, ih, List.append_assoc]

theorem mem_allIds (qs : List (String × List (String × Int))) (x : String) :
    x ∈ allIds qs ↔ ∃ q ∈ qs, x ∈ q.2.map (·.1) := by
  induction qs with
  | nil => simp [allIds]
  | cons q rest ih =>
    rw [allIds_cons]
    simp only [List.mem_append, ih, List.mem_cons]
    constructor
    · rintro (h | ⟨p, hp, hx⟩)
      · exact ⟨q, Or.inl rfl, h⟩
      · exact ⟨p, Or.inr hp, hx⟩
    · rintro ⟨p, (rfl | hp), hx⟩
      · exact Or.inl hx
      · exact Or.inr ⟨p, hp, hx⟩

theorem zbest_mem (s : List (String × Int)) (p : String × Int)
    (h : zbest s = some p) : p ∈ s := by
  induction s generalizing p with
  | nil => cases h
  | cons q rest ih =>
    unfold zbest at h
    cases hz : zbest rest with
    | none =>
      rw [hz] at h
      simp only at h
      cases h
      exact List.mem_cons_self _ _
    | some r =>
      rw [hz] at h
      simp only at h
      by_cases hc : r.2 < q.2 ∨ (q.2 = r.2 ∧ r.1 < q.1)
      · rw [if_pos hc] at h
        cases h
        exact List.mem_cons_self _ _
      · rw [if_neg hc] at h
        have hpr : r = p := Option.some.inj h
        exact hpr ▸ (List.mem_cons_of_mem _ (ih r hz))

theorem zrem_ids_not_mem (s : List (String × Int)) (jid : String) :
    jid ∉ (zrem s jid).map (·.1) := by
  intro h
  obtain ⟨p, hp, hp1⟩ := List.mem_map.mp h
  unfold zrem assocDel at hp
  have hpred := List.of_mem_filter hp
  simp [hp1] at hpred

theorem assocGet_some_mem {α : Type} (l : List (String × α)) (k : String)
    (v : α) (h : assocGet l k = some v) : (k, v) ∈ l := by
  unfold assocGet at h
  cases hf : l.find? (·.1 = k) with
  | none => rw [hf] at h; cases h
  | some p =>
    rw [hf] at h
    have hmem := List.mem_of_find?_eq_some hf
    have hkey : p.1 = k := by simpa using List.find?_some hf
    have hval : p.2 = v := by simpa using h
    have hpv : p = (k, v) := by
      obtain ⟨a, b⟩ := p
      simp only at hkey hval
      rw [hkey, hval]
    rwa [hpv] at hmem

theorem getQueueD_ids_subset (qs : List (String × List (String × Int)))
    (qk x : String) (h : x ∈ (assocGetD qs qk []).map (·.1)) :
    x ∈ allIds qs := by
  unfold assocGetD at h
  cases hg : assocGet qs qk with
  | none => rw [hg] at h; simp at h
  | some s =>
    rw [hg] at h
    exact (mem_allIds qs x).mpr ⟨(qk, s), assocGet_some_mem qs qk s hg, h⟩

theorem keys_assocSet_subset {α : Type} (l : List (String × α)) (k : String)
    (v : α) (x : String) (h : x ∈ (assocSet l k v).map (·.1)) :
    x = k ∨ x ∈ l.map (·.1) := by
  unfold assocSet at h
  by_cases hany : l.any (·.1 = k) = true
  · rw [if_pos hany] at h
    obtain ⟨p, hp, hp1⟩ := List.mem_map.mp h
    obtain ⟨q, hq, hfq⟩ := List.mem_map.mp hp
    by_cases hqk : q.1 = k
    · rw [if_pos hqk] at hfq
      left
      rw [← hp1, ← hfq]
    · rw [if_neg hqk] at hfq
      right
      exact List.mem_map.mpr ⟨q, hq, by rw [← hfq] at hp1; exact hp1⟩
  · rw [if_neg hany, List.map_append] at h
    rcases List.mem_append.mp h with h1 | h2
    · right; exact h1
    · left
      simpa using h2

theorem allIds_map_replace_subset
    (qs : List (String × List (String × Int))) (qk : String)
    (v : List (String × Int)) (x : String)
    (h : x ∈ allIds (qs.map (fun q => if q.1 = qk then (qk, v) else q))) :
    x ∈ v.map (·.1) ∨ x ∈ allIds qs := by
  induction qs with
  | nil => simp [allIds] at h
  | cons q rest ih =>
    simp only [List.map_cons] at h
    rw [allIds_cons] at h
    rcases List.mem_append.mp h with h1 | h2
    · by_cases hqk : q.1 = qk
      · rw [if_pos hqk] at h1
        left
        exact h1
      · rw [if_neg hqk] at h1
        right
        rw [allIds_cons]
        exact List.mem_append.mpr (Or.inl h1)
    · rcases ih h2 with h3 | h4
      · left; exact h3
      · right
        rw [allIds_cons]
        exact List.mem_append.mpr (Or.inr h4)

theorem allIds_assocSet_subset (qs : List (String × List (String × Int)))
    (qk : String) (v : List (String × Int)) (x : String)
    (h : x ∈ allIds (assocSet qs qk v)) :
    x ∈ v.map (·.1) ∨ x ∈ allIds qs := by
  unfold assocSet at h
  by_cases hany : qs.any (·.1 = qk) = true
  · rw [if_pos hany] at h
    exact allIds_map_replace_subset qs qk v x h
  · rw [if_neg hany, allIds_append] at h
    rcases List.mem_append.mp h with h1 | h2
    · right; exact h1
    · left
      rw [allIds_cons] at h2
      simpa [allIds] using h2

/-! ## Pop removal and Nodup preservation -/

theorem not_mem_allIds_after_remove (qk jid : String) :
    ∀ (qs : List (String × List (String × Int))),
      (allIds qs).Nodup →
      jid ∈ (assocGetD qs qk []).map (·.1) →
      jid ∉ allIds (assocSet qs qk (zrem (assocGetD qs qk []) jid)) := by
  intro qs
  induction qs with
  | nil =>
    intro _ hmem
    exfalso
    unfold assocGetD assocGet at hmem
    simp at hmem
  | cons q rest ih =>
    intro hnd hmem
    by_cases hq : q.1 = qk
    · have hgd : assocGetD (q :: rest) qk ([] : List (String × Int))
          = q.2 := by
        unfold assocGetD assocGet
        rw [List.find?_cons_of_pos _ (by simpa using hq)]
        rfl
      rw [hgd] at hmem ⊢
      have hany : ((q :: rest).any (·.1 = qk)) = true := by
        simp [List.any_cons, hq]
      intro hx
      unfold assocSet at hx
      rw [hany, if_pos rfl] at hx
      simp only [List.map_cons, if_pos hq] at hx
      rw [allIds_cons] at hx
      rcases List.mem_append.mp hx with h1 | h2
      · exact zrem_ids_not_mem q.2 jid h1
      · rcases allIds_map_replace_subset rest qk _ jid h2 with h3 | h4
        · exact zrem_ids_not_mem q.2 jid h3
        · rw [allIds_cons] at hnd
          exact (List.disjoint_of_nodup_append hnd) hmem h4
    · have hgd : assocGetD (q :: rest) qk ([] : List (String × Int))
          = assocGetD rest qk [] := by
        unfold assocGetD assocGet
        rw [List.find?_cons_of_neg _ (by simpa using hq)]
      rw [hgd] at hmem ⊢
      rw [allIds_cons] at hnd
      have hndr : (allIds rest).Nodup := hnd.of_append_right
      by_cases hr : rest.any (·.1 = qk) = true
      · rw [assocSet_cons_ne q rest qk _ hq]
        intro hx
        rw [allIds_cons] at hx
        rcases List.mem_append.mp hx with h1 | h2
        · have hsub : jid ∈ allIds rest :=
            getQueueD_ids_subset rest qk jid hmem
          exact (List.disjoint_of_nodup_append hnd) h1 hsub
        · exact ih hndr hmem h2
      · exfalso
        have hget0 : assocGetD rest qk ([] : List (String × Int)) = [] := by
          unfold assocGetD
          rw [assocGet_eq_none_of_any_false rest qk
            (Bool.eq_false_iff.mpr hr)]
          rfl
        rw [hget0] at hmem
        simp at hmem

theorem nodup_allIds_assocSet_zrem (qk jid : String) :
    ∀ (qs : List (String × List (String × Int))),
      (qs.map (·.1)).Nodup → (allIds qs).Nodup →
      (allIds (assocSet qs qk (zrem (assocGetD qs qk []) jid))).Nodup := by
  intro qs
  induction qs with
  | nil =>
    intro _ _
    show (allIds ([] ++ [(qk, zrem (assocGetD [] qk []) jid)])).Nodup
    simp [allIds, assocGetD, assocGet, zrem, assocDel]
  | cons q rest ih =>
    intro hwf hnd
    rw [List.map_cons] at hwf
    by_cases hq : q.1 = qk
    · have hgd : assocGetD (q :: rest) qk ([] : List (String × Int))
          = q.2 := by
        unfold assocGetD assocGet
        rw [List.find?_cons_of_pos _ (by simpa using hq)]
        rfl
      rw [hgd]
      have hany : ((q :: rest).any (·.1 = qk)) = true := by
        simp [List.any_cons, hq]
      unfold assocSet
      rw [hany, if_pos rfl]
      simp only [List.map_cons, if_pos hq]
      have hqk_not : qk ∉ rest.map (·.1) := by
        have := (List.nodup_cons.mp hwf).1
        rwa [hq] at this
      have hrk : rest.any (·.1 = qk) = false := by
        cases hax : rest.any (·.1 = qk) with
        | false => rfl
        | true =>
          exfalso
          obtain ⟨p, hp, hpk⟩ := List.any_eq_true.mp hax
          exact hqk_not (List.mem_map.mpr ⟨p, hp, by simpa using hpk⟩)
      rw [map_replace_of_any_false rest qk _ hrk]
      rw [allIds_cons] at hnd ⊢
      have hsub : ((zrem q.2 jid).map (·.1)).Sublist (q.2.map (·.1)) :=
        (List.filter_sublist q.2).map _
      exact hnd.sublist (hsub.append_right _)
    · have hgd : assocGetD (q :: rest) qk ([] : List (String × Int))
          = assocGetD rest qk [] := by
        unfold assocGetD assocGet
        rw [List.find?_cons_of_neg _ (by simpa using hq)]
      rw [hgd, assocSet_cons_ne q rest qk _ hq]
      rw [allIds_cons] at hnd ⊢
      rcases List.nodup_append.mp hnd with ⟨hnda, hndb, hdisj⟩
      rw [List.nodup_append]
      refine ⟨hnda, ih (List.nodup_cons.mp hwf).2 hndb, ?_⟩
      intro x hxa hxb
      rcases allIds_assocSet_subset rest qk _ x hxb with h1 | h2
      · have hx2 : x ∈ (assocGetD rest qk []).map (·.1) :=
          ((List.filter_sublist _).map _).subset h1
        exact hdisj hxa (getQueueD_ids_subset rest qk x hx2)
      · exact hdisj hxa h2

/-! ## Payload-consistency preservation -/

theorem payloadConsistentL_assocUpdate_preserve
    (jobs : List (String × JobHash)) (k : String) (f : JobHash → JobHash)
    (d : JobHash) (hpres : ∀ hh, (f hh).payload = hh.payload)
    (hd : d.payload = none) (h : PayloadConsistentL jobs) :
    PayloadConsistentL (assocUpdate jobs k f d) := by
  intro p hp j hpj
  unfold assocUpdate at hp
  by_cases hany : jobs.any (·.1 = k) = true
  · rw [if_pos hany] at hp
    obtain ⟨q, hq, hfq⟩ := List.mem_map.mp hp
    by_cases hqk : q.1 = k
    · have h1 : p.1 = k := by rw [← hfq, if_pos hqk]
      have h2 : p.2 = f q.2 := by rw [← hfq, if_pos hqk]
      rw [h2, hpres q.2] at hpj
      rw [h1, ← hqk]
      exact h q hq j hpj
    · rw [if_neg hqk] at hfq
      rw [← hfq] at hpj ⊢
      exact h q hq j hpj
  · rw [if_neg hany] at hp
    rcases List.mem_append.mp hp with h1 | h1
    · exact h p h1 j hpj
    · have hp' : p = (k, f d) := by simpa using h1
      rw [hp'] at hpj
      simp only at hpj
      rw [hpres d, hd] at hpj
      cases hpj

theorem payloadConsistentL_assocUpdate_set
    (jobs : List (String × JobHash)) (k : String) (f : JobHash → JobHash)
    (d : JobHash) (hset : ∀ hh j, (f hh).payload = some j → j.job_id = k)
    (h : PayloadConsistentL jobs) :
    PayloadConsistentL (assocUpdate jobs k f d) := by
  intro p hp j hpj
  unfold assocUpdate at hp
  by_cases hany : jobs.any (·.1 = k) = true
  · rw [if_pos hany] at hp
    obtain ⟨q, hq, hfq⟩ := List.mem_map.mp hp
    by_cases hqk : q.1 = k
    · have h1 : p.1 = k := by rw [← hfq, if_pos hqk]
      have h2 : p.2 = f q.2 := by rw [← hfq, if_pos hqk]
      rw [h2] at hpj
      rw [h1]
      exact hset q.2 j hpj
    · rw [if_neg hqk] at hfq
      rw [← hfq] at hpj ⊢
      exact h q hq j hpj
  · rw [if_neg hany] at hp
    rcases List.mem_append.mp hp with h1 | h1
    · exact h p h1 j hpj
    · have hp' : p = (k, f d) := by simpa using h1
      rw [hp'] at hpj ⊢
      simp only at hpj ⊢
      exact hset d j hpj

theorem pc_enqueueRagJob (avail : Bool) (st : QueueState) (jobId : String)
    (uid : Option String) (q : String) (tk : Option Nat) (ms : Option Rat)
    (fid : Option String) (pr : Option Int) (now : Nat) (iso : String)
    (h : PayloadConsistent st) :
    PayloadConsistent
      (enqueueRagJob avail st jobId uid q tk ms fid pr now iso).2 := by
  cases avail with
  | false => exact h
  | true =>
    show PayloadConsistentL
      ((enqueueRagJob true st jobId uid q tk ms fid pr now iso).2).jobs
    rw [enqueueRagJob_jobs]
    apply payloadConsistentL_assocUpdate_set _ _ _ _ _ h
    intro hh j hpj
    have : some (ragJobOf jobId uid q tk ms fid pr) = some j := hpj
    cases this
    rfl

theorem pc_claimWrites (st : QueueState) (jid wid : String) (now : Nat)
    (h : PayloadConsistent st) :
    PayloadConsistent (claimWrites st jid wid now) := by
  show PayloadConsistentL (assocUpdate st.jobs jid (fun hh =>
    { hh with
      status := some "running"
      started_at := some (now / 1000)
      worker_id := some wid }) {})
  exact payloadConsistentL_assocUpdate_preserve _ _ _ _ (fun hh => rfl) rfl h

theorem pc_tryClaimFrom (st : QueueState) (qk wid : String) (now : Nat)
    (h : PayloadConsistent st) :
    PayloadConsistent (tryClaimFrom st qk wid now).2 := by
  unfold tryClaimFrom
  cases hz : zbest (getQueue st qk) with
  | none => exact h
  | some p =>
    obtain ⟨jid, sc⟩ := p
    simp only
    cases hp : jobPayload (setQueue st qk (zrem (getQueue st qk) jid)) jid
      with
    | none => exact h
    | some job =>
      simp only
      exact pc_claimWrites _ jid wid now h

theorem pc_claimJob (st : QueueState) (wt wid : String) (now : Nat)
    (h : PayloadConsistent st) :
    PayloadConsistent (claimJob true st wt wid now).2 := by
  unfold claimJob
  rw [if_neg (by simp)]
  rcases htc : tryClaimFrom st ("queue:" ++ wt) wid now with ⟨res, st1⟩
  have h1 : PayloadConsistent st1 := by
    have := pc_tryClaimFrom st ("queue:" ++ wt) wid now h
    rwa [htc] at this
  cases res with
  | none =>
    simp only
    have := pc_tryClaimFrom st1 "queue:any" wid now h1
    exact this
  | some j => exact h1

theorem pc_completeJob (avail : Bool) (st : QueueState) (jid wid r : String)
    (now : Nat) (h : PayloadConsistent st) :
    PayloadConsistent (completeJob avail st jid wid r now) := by
  cases avail with
  | false => exact h
  | true =>
    show PayloadConsistentL (assocUpdate st.jobs jid (fun hh =>
      { hh with
        status := some "completed"
        completed_at := some (now / 1000)
        result := some r }) {})
    exact payloadConsistentL_assocUpdate_preserve _ _ _ _ (fun hh => rfl) rfl h

theorem pc_failJob (avail : Bool) (st : QueueState) (jid wid e : String)
    (now : Nat) (h : PayloadConsistent st) :
    PayloadConsistent (failJob avail st jid wid e now) := by
  cases avail with
  | false => exact h
  | true =>
    show PayloadConsistentL (assocUpdate st.jobs jid (fun hh =>
      { hh with
        status := some "failed"
        failed_at := some (now / 1000)
        error := some e }) {})
    exact payloadConsistentL_assocUpdate_preserve _ _ _ _ (fun hh => rfl) rfl h

theorem pc_sendHeartbeat (avail : Bool) (st : QueueState) (jid wid : String)
    (now : Nat) (h : PayloadConsistent st) :
    PayloadConsistent (sendHeartbeat avail st jid wid now) := by
  cases avail with
  | false => exact h
  | true =>
    show PayloadConsistentL (assocUpdate st.jobs jid (fun hh =>
      { hh with last_heartbeat := some (now / 1000) }) {})
    exact payloadConsistentL_assocUpdate_preserve _ _ _ _ (fun hh => rfl) rfl h

theorem pc_updateJobProgress (avail : Bool) (st : QueueState) (jid : String)
    (p cp now : Nat) (h : PayloadConsistent st) :
    PayloadConsistent (updateJobProgress avail st jid p cp now) := by
  cases avail with
  | false => exact h
  | true =>
    show PayloadConsistentL (assocUpdate st.jobs jid (fun hh =>
      { hh with
        progress := some p
        chunks_processed := some cp
        last_heartbeat := some (now / 1000) }) {})
    exact payloadConsistentL_assocUpdate_preserve _ _ _ _ (fun hh => rfl) rfl h

theorem pc_applyOp (st : QueueState) (op : QOp) (h : PayloadConsistent st) :
    PayloadConsistent (applyOp st op) := by
  cases op with
  | enqueue avail jobId uid q tk ms fid pr now iso =>
    exact pc_enqueueRagJob avail st jobId uid q tk ms fid pr now iso h
  | claim avail wt wid now =>
    cases avail with
    | false => exact h
    | true => exact pc_claimJob st wt wid now h
  | complete avail jid wid r now => exact pc_completeJob avail st jid wid r now h
  | fail avail jid wid e now => exact pc_failJob avail st jid wid e now h
  | heartbeat avail jid wid now => exact pc_sendHeartbeat avail st jid wid now h
  | progress avail jid p cp now =>
    exact pc_updateJobProgress avail st jid p cp now h

/-! ## Claim and trace lemmas -/

theorem tryClaimFrom_queues_subset (st : QueueState) (qk wid : String)
    (now : Nat) :
    ∀ x, x ∈ allQueueIds (tryClaimFrom st qk wid now).2 →
      x ∈ allQueueIds st := by
  unfold tryClaimFrom
  cases hz : zbest (getQueue st qk) with
  | none => intro x hx; exact hx
  | some p =>
    obtain ⟨jid, sc⟩ := p
    simp only
    have hq2 : ∀ x, x ∈ allIds (assocSet st.queues qk
        (zrem (getQueue st qk) jid)) → x ∈ allQueueIds st := by
      intro x hmem
      rcases allIds_assocSet_subset st.queues qk _ x hmem with h1 | h2
      · have hx2 : x ∈ (getQueue st qk).map (·.1) :=
          ((List.filter_sublist _).map _).subset h1
        exact getQueueD_ids_subset st.queues qk x hx2
      · exact h2
    cases hp : jobPayload (setQueue st qk (zrem (getQueue st qk) jid)) jid
      with
    | none => intro x hx; exact hq2 x hx
    | some job => intro x hx; exact hq2 x hx

theorem claimJob_queues_subset (st : QueueState) (wt wid : String)
    (now : Nat) :
    ∀ x, x ∈ allQueueIds (claimJob true st wt wid now).2 →
      x ∈ allQueueIds st := by
  unfold claimJob
  rw [if_neg (by simp)]
  rcases htc : tryClaimFrom st ("queue:" ++ wt) wid now with ⟨res, st1⟩
  have hs1 : ∀ x, x ∈ allQueueIds st1 → x ∈ allQueueIds st := by
    intro x hx
    have hsub := tryClaimFrom_queues_subset st ("queue:" ++ wt) wid now x
    rw [htc] at hsub
    exact hsub hx
  cases res with
  | some j => intro x hx; exact hs1 x hx
  | none =>
    simp only
    intro x hx
    exact hs1 x (tryClaimFrom_queues_subset st1 "queue:any" wid now x hx)

theorem absent_enqueueRagJob (avail : Bool) (st : QueueState)
    (jobId : String) (uid : Option String) (q : String) (tk : Option Nat)
    (ms : Option Rat) (fid : Option String) (pr : Option Int) (now : Nat)
    (iso : String) (jid : String)
    (habs : jid ∉ allQueueIds st) (hne : ¬ (jobId = jid)) :
    jid ∉ allQueueIds
      (enqueueRagJob avail st jobId uid q tk ms fid pr now iso).2 := by
  cases avail with
  | false => exact habs
  | true =>
    intro hx
    have hqs : allQueueIds
        (enqueueRagJob true st jobId uid q tk ms fid pr now iso).2
        = allIds (assocSet st.queues "queue:rag"
            (zadd (getQueue st "queue:rag") (-(jsOrInt pr 5)) jobId)) := by
      unfold allQueueIds
      rw [enqueueRagJob_queues]
    rw [hqs] at hx
    rcases allIds_assocSet_subset _ _ _ _ hx with h1 | h2
    · rcases keys_assocSet_subset _ _ _ _ h1 with h3 | h4
      · exact hne h3.symm
      · exact habs (getQueueD_ids_subset st.queues "queue:rag" jid h4)
    · exact habs h2

theorem absent_applyOp (st : QueueState) (op : QOp) (jid : String)
    (habs : jid ∉ allQueueIds st) (hne : enqueueIdOf op ≠ some jid) :
    jid ∉ allQueueIds (applyOp st op) := by
  cases op with
  | enqueue avail jobId uid q tk ms fid pr now iso =>
    have hne' : ¬ (jobId = jid) := fun he => hne (by rw [he]; rfl)
    exact absent_enqueueRagJob avail st jobId uid q tk ms fid pr now iso jid
      habs hne'
  | claim avail wt wid now =>
    cases avail with
    | false => exact habs
    | true =>
      intro hx
      exact habs (claimJob_queues_subset st wt wid now jid hx)
  | complete avail jobId wid r now =>
    cases avail with
    | false => exact habs
    | true => exact habs
  | fail avail jobId wid e now =>
    cases avail with
    | false => exact habs
    | true => exact habs
  | heartbeat avail jobId wid now =>
    cases avail with
    | false => exact habs
    | true => exact habs
  | progress avail jobId p cp now =>
    cases avail with
    | false => exact habs
    | true => exact habs

theorem applyOps_cons (st : QueueState) (op : QOp) (rest : List QOp) :
    applyOps st (op :: rest) = applyOps (applyOp st op) rest := rfl

theorem trace_absent_pc (jid : String) :
    ∀ (ops : List QOp) (st : QueueState),
      jid ∉ allQueueIds st → PayloadConsistent st →
      (∀ op ∈ ops, enqueueIdOf op ≠ some jid) →
      jid ∉ allQueueIds (applyOps st ops)
        ∧ PayloadConsistent (applyOps st ops) := by
  intro ops
  induction ops with
  | nil =>
    intro st habs hpc _
    exact ⟨habs, hpc⟩
  | cons op rest ih =>
    intro st habs hpc hops
    rw [applyOps_cons]
    exact ih (applyOp st op)
      (absent_applyOp st op jid habs (hops op (List.mem_cons_self _ _)))
      (pc_applyOp st op hpc)
      (fun o ho => hops o (List.mem_cons_of_mem _ ho))

theorem jobPayload_job_id (st : QueueState) (jid : String) (job : Job)
    (hpc : PayloadConsistent st) (hp : jobPayload st jid = some job) :
    job.job_id = jid := by
  unfold jobPayload at hp
  cases hg : assocGet st.jobs jid with
  | none => rw [hg] at hp; cases hp
  | some hash =>
    rw [hg] at hp
    have hpay : hash.payload = some job := hp
    exact hpc (jid, hash) (assocGet_some_mem _ _ _ hg) job hpay

theorem tryClaimFrom_removes (st : QueueState) (qk wid : String) (now : Nat)
    (K : Job) (stOut : QueueState)
    (hnd : UniqueQueueIds st) (hpc : PayloadConsistent st)
    (h : tryClaimFrom st qk wid now = (some K, stOut)) :
    K.job_id ∉ allQueueIds stOut := by
  unfold tryClaimFrom at h
  cases hz : zbest (getQueue st qk) with
  | none =>
    rw [hz] at h
    exact absurd h (by simp)
  | some p =>
    obtain ⟨jid, sc⟩ := p
    rw [hz] at h
    simp only at h
    cases hp : jobPayload (setQueue st qk (zrem (getQueue st qk) jid)) jid
      with
    | none =>
      rw [hp] at h
      exact absurd h (by simp)
    | some job =>
      rw [hp] at h
      have h1 : some job = some K := congrArg Prod.fst h
      have h2 : claimWrites (setQueue st qk (zrem (getQueue st qk) jid)) jid
          wid now = stOut := congrArg Prod.snd h
      have hjK : job = K := Option.some.inj h1
      have hp' : jobPayload st jid = some job := hp
      have hid : K.job_id = jid := by
        rw [← hjK]
        exact jobPayload_job_id st jid job hpc hp'
      rw [← h2, hid]
      have hmem : jid ∈ (assocGetD st.queues qk []).map (·.1) :=
        List.mem_map.mpr ⟨(jid, sc), zbest_mem _ _ hz, rfl⟩
      exact not_mem_allIds_after_remove qk jid st.queues hnd hmem

theorem tryClaimFrom_none_state (st : QueueState) (qk wid : String)
    (now : Nat) :
    (tryClaimFrom st qk wid now).1 = none →
    ((tryClaimFrom st qk wid now).2.jobs = st.jobs
     ∧ (UniqueQueueIds st → QueuesWF st →
         UniqueQueueIds (tryClaimFrom st qk wid now).2)) := by
  unfold tryClaimFrom
  cases hz : zbest (getQueue st qk) with
  | none =>
    intro _
    exact ⟨rfl, fun hnd _ => hnd⟩
  | some p =>
    obtain ⟨jid, sc⟩ := p
    simp only
    cases hp : jobPayload (setQueue st qk (zrem (getQueue st qk) jid)) jid
      with
    | none =>
      intro _
      constructor
      · rfl
      · intro hnd hwf
        show (allIds (assocSet st.queues qk
          (zrem (getQueue st qk) jid))).Nodup
        exact nodup_allIds_assocSet_zrem qk jid st.queues hwf hnd
    | some job =>
      intro hcon
      exact absurd hcon (by simp)

theorem tryClaimFrom_some_mem (st : QueueState) (qk wid : String)
    (now : Nat) (K : Job) (hpc : PayloadConsistent st)
    (h : (tryClaimFrom st qk wid now).1 = some K) :
    K.job_id ∈ allQueueIds st := by
  unfold tryClaimFrom at h
  cases hz : zbest (getQueue st qk) with
  | none =>
    rw [hz] at h
    exact absurd h (by simp)
  | some p =>
    obtain ⟨jid, sc⟩ := p
    rw [hz] at h
    simp only at h
    cases hp : jobPayload (setQueue st qk (zrem (getQueue st qk) jid)) jid
      with
    | none =>
      rw [hp] at h
      exact absurd h (by simp)
    | some job =>
      rw [hp] at h
      simp only at h
      have hjK : job = K := by simpa using h
      have hp' : jobPayload st jid = some job := hp
      have hid : job.job_id = jid := jobPayload_job_id st jid job hpc hp'
      rw [← hjK, hid]
      exact getQueueD_ids_subset st.queues qk jid
        (List.mem_map.mpr ⟨(jid, sc), zbest_mem _ _ hz, rfl⟩)

theorem claimJob_some_mem (st : QueueState) (wt wid : String) (now : Nat)
    (K : Job) (hpc : PayloadConsistent st)
    (h : (claimJob true st wt wid now).1 = some K) :
    K.job_id ∈ allQueueIds st := by
  unfold claimJob at h
  rw [if_neg (by simp)] at h
  rcases htc : tryClaimFrom st ("queue:" ++ wt) wid now with ⟨res, st1⟩
  rw [htc] at h
  cases res with
  | some j =>
    simp only at h
    have hjK : j = K := by simpa using h
    subst hjK
    have h1 : (tryClaimFrom st ("queue:" ++ wt) wid now).1 = some j := by
      rw [htc]
    exact tryClaimFrom_some_mem st _ wid now j hpc h1
  | none =>
    simp only at h
    have hnone : (tryClaimFrom st ("queue:" ++ wt) wid now).1 = none := by
      rw [htc]
    have hpc1 : PayloadConsistent st1 := by
      have hkeep := pc_tryClaimFrom st ("queue:" ++ wt) wid now hpc
      rw [htc] at hkeep
      exact hkeep
    have hmem1 := tryClaimFrom_some_mem st1 "queue:any" wid now K hpc1 h
    have hsub := tryClaimFrom_queues_subset st ("queue:" ++ wt) wid now
      K.job_id
    rw [htc] at hsub
    exact hsub hmem1

theorem claimJob_removes (st : QueueState) (wt wid : String) (now : Nat)
    (K : Job) (st' : QueueState)
    (hwf : QueuesWF st) (hnd : UniqueQueueIds st)
    (hpc : PayloadConsistent st)
    (h : claimJob true st wt wid now = (some K, st')) :
    K.job_id ∉ allQueueIds st' := by
  unfold claimJob at h
  rw [if_neg (by simp)] at h
  rcases htc : tryClaimFrom st ("queue:" ++ wt) wid now with ⟨res, st1⟩
  rw [htc] at h
  cases res with
  | some j =>
    have h1 : some j = some K := congrArg Prod.fst h
    have h2 : st1 = st' := congrArg Prod.snd h
    have hjK : j = K := Option.some.inj h1
    subst hjK
    subst h2
    exact tryClaimFrom_removes st ("queue:" ++ wt) wid now j st1 hnd hpc htc
  | none =>
    simp only at h
    have hnone : (tryClaimFrom st ("queue:" ++ wt) wid now).1 = none := by
      rw [htc]
    obtain ⟨hjobs, hkeep⟩ :=
      tryClaimFrom_none_state st ("queue:" ++ wt) wid now hnone
    have hnd1 : UniqueQueueIds st1 := by
      have hx := hkeep hnd hwf
      rw [htc] at hx
      exact hx
    have hpc1 : PayloadConsistent st1 := by
      have hx := pc_tryClaimFrom st ("queue:" ++ wt) wid now hpc
      rw [htc] at hx
      exact hx
    exact tryClaimFrom_removes st1 "queue:any" wid now K st' hnd1 hpc1 h

/-! ## C9 — worker exclusion -/

/-- C9: once `claimJob` hands job J to worker W1, J's id is out of every
sorted set, and no later `claimJob` — by any worker, after any interleaving
of claims, completions, failures, heartbeats, progress updates and enqueues
of fresh ids — ever returns a job with J's id again (completion does not
requeue). -/
theorem claimed_job_never_reclaimed
    (st : QueueState) (wt wid : String) (now : Nat) (J : Job)
    (st' : QueueState)
    (hwf : QueuesWF st) (hnd : UniqueQueueIds st)
    (hpc : PayloadConsistent st)
    (hclaim : claimJob true st wt wid now = (some J, st'))
    (ops : List QOp)
    (hops : ∀ op ∈ ops, enqueueIdOf op ≠ some J.job_id)
    (wt' wid' : String) (now' : Nat) (K : Job)
    (hK : (claimJob true (applyOps st' ops) wt' wid' now').1 = some K) :
    ¬ (K.job_id = J.job_id) := by
  have habs0 : J.job_id ∉ allQueueIds st' :=
    claimJob_removes st wt wid now J st' hwf hnd hpc hclaim
  have hpc0 : PayloadConsistent st' := by
    have hx := pc_claimJob st wt wid now hpc
    rw [hclaim] at hx
    exact hx
  obtain ⟨habs, hpcN⟩ := trace_absent_pc J.job_id ops st' habs0 hpc0 hops
  intro heq
  have hmem := claimJob_some_mem (applyOps st' ops) wt' wid' now' K hpcN hK
  rw [heq] at hmem
  exact habs hmem

/-- Witness for C9: claim `jlow` from the S5 state, run no further
operations, and observe the next claim returns `jhigh`, a different id. -/
theorem claimed_job_never_reclaimed_witness :
    QueuesWF stS5 ∧ UniqueQueueIds stS5 ∧ PayloadConsistent stS5
    ∧ (claimJob true
        (applyOps (claimJob true stS5 "rag" "w1" 3000).2 []) "rag" "w2"
        4000).1 = some jobHighS5
    ∧ ¬ (jobHighS5.job_id = jobLowS5.job_id) := by
  refine ⟨by decide, by decide, by decide, by rfl, ?_⟩
  exact claimed_job_never_reclaimed stS5 "rag" "w1" 3000 jobLowS5
    (claimJob true stS5 "rag" "w1" 3000).2 (by decide) (by decide)
    (by decide) (by rfl) [] (by intro op hop; cases hop) "rag" "w2" 4000
    jobHighS5 (by rfl)

/-! ## C10 — the worker path cannot reach the no-files short circuit -/

theorem answerQuestion_empty_results
    (env : Env) (cache : Cache) (q : String) (userId : Option String)
    (options : Options) (calls : List ExtCall)
    (hq : ¬ ((jsTrim q).length = 0))
    (hmiss : (getCachedAnswer cache env.now
        (cacheKeyFor q userId (resolveConfig options))).1 = none)
    (hfc : options.fileContext ≠ some [])
    (hsearch : runSearch env q userId (resolveConfig options)
        = (.ok [], calls)) :
    answerQuestion env cache (some q) userId options
      = (.ok (noRelevantRecord (resolveConfig options)),
         (getCachedAnswer cache env.now
           (cacheKeyFor q userId (resolveConfig options))).2, calls) := by
  rcases hget : getCachedAnswer cache env.now
      (cacheKeyFor q userId (resolveConfig options)) with ⟨ro, cache'⟩
  rw [hget] at hmiss
  simp only at hmiss
  subst hmiss
  simp only [answerQuestion]
  rw [if_neg hq, hget]
  simp only
  rw [if_neg hfc, hsearch]
  simp only [List.length_nil]
  rw [if_pos trivial]

theorem answerQuestion_miss_no_reason
    (env : Env) (cache : Cache) (q : String) (userId : Option String)
    (options : Options)
    (hmiss : (getCachedAnswer cache env.now
        (cacheKeyFor q userId (resolveConfig options))).1 = none)
    (hfc : options.fileContext ≠ some []) :
    ∀ rec, (answerQuestion env cache (some q) userId options).1 = .ok rec →
      rec.metadata.reason ≠ some "no_files" := by
  intro rec hrec
  by_cases hq : (jsTrim q).length = 0
  · simp only [answerQuestion] at hrec
    rw [if_pos hq] at hrec
    simp at hrec
  · rcases hget : getCachedAnswer cache env.now
        (cacheKeyFor q userId (resolveConfig options)) with ⟨ro, cache'⟩
    rw [hget] at hmiss
    simp only at hmiss
    subst hmiss
    simp only [answerQuestion] at hrec
    rw [if_neg hq, hget] at hrec
    simp only at hrec
    rw [if_neg hfc] at hrec
    rcases hrs : runSearch env q userId (resolveConfig options) with
      ⟨sr, calls⟩
    rw [hrs] at hrec
    cases sr with
    | error e => simp at hrec
    | ok finalResults =>
      simp only at hrec
      by_cases hlen : finalResults.length = 0
      · rw [if_pos hlen] at hrec
        have hrw : noRelevantRecord (resolveConfig options) = rec :=
          Except.ok.inj hrec
        rw [← hrw]
        simp [noRelevantRecord]
      · rw [if_neg hlen] at hrec
        have hrw : buildResult env q (resolveConfig options) finalResults
            = rec := Except.ok.inj hrec
        rw [← hrw]
        simp [buildResult]

/-- C10: every queued RAG_QUERY job without a (truthy) `fileId` is
dispatched by the worker's `processJob` to `answerQuestion` with options
that contain no `fileContext`, so the "no documents" short circuit is
unreachable on that path: on a cache miss no `.ok` result ever carries
`reason = "no_files"`, and a user with zero indexed documents (empty
retrieval) receives the canned "no relevant information" answer. -/
theorem worker_processJob_no_files_unreachable
    (env : Env) (cache : Cache) (job : Job)
    (hfid : jsStrTruthy job.payload.fileId = false)
    (hmiss : (getCachedAnswer cache env.now
        (cacheKeyFor job.payload.question job.payload.userId
          (resolveConfig (workerOptions job.payload)))).1 = none) :
    (workerOptions job.payload).fileContext = none
    ∧ processJob env cache job
        = answerQuestion env cache (some job.payload.question)
            job.payload.userId (workerOptions job.payload)
    ∧ (∀ rec, (processJob env cache job).1 = .ok rec →
        rec.metadata.reason ≠ some "no_files")
    ∧ (∀ calls, ¬ ((jsTrim job.payload.question).length = 0) →
        runSearch env job.payload.question job.payload.userId
            (resolveConfig (workerOptions job.payload)) = (.ok [], calls) →
        (processJob env cache job).1
          = .ok (noRelevantRecord
              (resolveConfig (workerOptions job.payload)))) := by
  have hdisp : processJob env cache job
      = answerQuestion env cache (some job.payload.question)
          job.payload.userId (workerOptions job.payload) := by
    simp [processJob, hfid]
  refine ⟨rfl, hdisp, ?_, ?_⟩
  · intro rec hrec
    rw [hdisp] at hrec
    exact answerQuestion_miss_no_reason env cache job.payload.question
      job.payload.userId (workerOptions job.payload) hmiss
      (by simp [workerOptions]) rec hrec
  · intro calls hq hsearch
    rw [hdisp]
    rw [answerQuestion_empty_results env cache job.payload.question
      job.payload.userId (workerOptions job.payload) calls hq hmiss
      (by simp [workerOptions]) hsearch]

/-- Witness for C10: the queued `workerJob` (no `fileId`) against an
environment with a working embedder and empty indexes. -/
theorem worker_processJob_no_files_unreachable_witness :
    jsStrTruthy workerJob.payload.fileId = false
    ∧ (getCachedAnswer [] envEmbedOk.now
        (cacheKeyFor workerJob.payload.question workerJob.payload.userId
          (resolveConfig (workerOptions workerJob.payload)))).1 = none
    ∧ (workerOptions workerJob.payload).fileContext = none
    ∧ (processJob envEmbedOk [] workerJob).1
        = .ok (noRelevantRecord
            (resolveConfig (workerOptions workerJob.payload)))
    ∧ (noRelevantRecord
        (resolveConfig (workerOptions workerJob.payload))).metadata.reason
        ≠ some "no_files" := by
  have h := worker_processJob_no_files_unreachable envEmbedOk [] workerJob
    (by decide) (by rfl)
  refine ⟨by decide, by rfl, h.1, ?_, by decide⟩
  exact h.2.2.2 [.bm25Search, .embed, .vectorSearch] (by decide) (by rfl)

end KnowledgeManager
